import Mathlib

/-!
Shallow embedding of the ad-chroma vector database core.

The embedded code:
* `DbIndex` (src/unnamed/part_001): per-collection vector index — label
  assignment, capacity growth, add/delete/search, snapshot persistence.
* `SqliteDb` (src/unnamed/part_000): the coordinator — collection rows and
  embedding rows, `createCollection`, `updateEmbedding`.

JavaScript objects used as dictionaries (`idToLabel`, `labelToId`, the index
cache, the in-memory filesystem standing for the snapshot files) are modelled
as association lists with `getKV`/`setKV`/`delKV`.  A JavaScript value that may
be `undefined` is an `Option`.  A thrown exception is an `Err` value returned
next to the (partially mutated) state, since a JS throw leaves all mutations
made so far in place.  Vectors are `List ℚ`; the distance function of the ANN
collaborator is an explicit parameter of search, so theorems hold for every
metric.  The `HierarchicalNSW` collaborator (hnswlib-node) is modelled per its
contract: point storage keyed by integer label, mark-delete, capacity resize,
k-NN query with an optional label predicate, binary save/load of its state; its
node binding rejects a non-number label argument (`markDelete(undefined)`,
`addPoint(_, undefined)`) with a thrown type error, modelled as `Err.jsTypeError`.
-/

/-- Association-list lookup: the JS object property read `m[k]`,
`undefined` becoming `none`. -/
def getKV {α β : Type} [DecidableEq α] : List (α × β) → α → Option β
  | [], _ => none
  | p :: rest, k => if p.1 = k then some p.2 else getKV rest k

/-- Association-list removal: the JS statement `delete m[k]`. -/
def delKV {α β : Type} [DecidableEq α] : List (α × β) → α → List (α × β)
  | [], _ => []
  | p :: rest, k => if p.1 = k then delKV rest k else p :: delKV rest k

/-- Association-list write: the JS assignment `m[k] = v`. -/
def setKV {α β : Type} [DecidableEq α] (m : List (α × β)) (k : α) (v : β) :
    List (α × β) :=
  (k, v) :: delKV m k

/-- The error kinds the embedded code can surface: the typed failures of the
spec plus the throws of the collaborators (hnswlib-node argument/state
errors, the knex factory's missing-client configuration error thrown when it
is called in place of an instance, a JS TypeError from dereferencing
`undefined`/`null`). -/
inductive Err where
  | dimensionMismatch
  | duplicateId
  | invalidIndexState
  | requestedCountExceedsAvailable
  | alreadyExists
  | notFound
  | ownershipMismatch
  | knexMisconfigured
  | hnswInvalidArrayLength
  | hnswInvalidLabel
  | hnswCapacityExceeded
  | hnswResizeTooSmall
  | hnswUpdateDeletedPoint
  | jsTypeError
deriving DecidableEq, Repr

/-- The `HierarchicalNSW` collaborator's state: fixed dimensionality, current
capacity (`getMaxElements`), stored points keyed by label, and the set of
mark-deleted (tombstoned) labels.  `points.length` is `getCurrentCount()`,
which counts every inserted point, tombstoned ones included. -/
structure Hnsw where
  dim : Nat
  capacity : Nat
  points : List (Nat × List ℚ)
  deleted : List Nat
deriving DecidableEq, Repr

/-- hnswlib `addPoint(v, lbl)`: a non-number label is rejected by the binding;
a wrong-length vector is rejected; an existing live label is updated in place;
an existing tombstoned label cannot be re-added; a new label needs free
capacity. -/
def Hnsw.addPoint (h : Hnsw) (v : List ℚ) (lbl : Option Nat) : Except Err Hnsw :=
  match lbl with
  | none => .error .jsTypeError
  | some l =>
    if v.length ≠ h.dim then .error .hnswInvalidArrayLength
    else if (getKV h.points l).isSome then
      if l ∈ h.deleted then .error .hnswUpdateDeletedPoint
      else .ok { h with points := setKV h.points l v }
    else if h.capacity ≤ h.points.length then .error .hnswCapacityExceeded
    else .ok { h with points := setKV h.points l v }

/-- hnswlib `markDelete(lbl)` for a number label: the label must name a stored,
not yet deleted point; it is then tombstoned (storage not reclaimed). -/
def Hnsw.markDelete (h : Hnsw) (l : Nat) : Except Err Hnsw :=
  if (getKV h.points l).isNone then .error .hnswInvalidLabel
  else if l ∈ h.deleted then .error .hnswInvalidLabel
  else .ok { h with deleted := l :: h.deleted }

/-- hnswlib `resizeIndex(n)`: the new capacity may not drop below the number
of stored points. -/
def Hnsw.resizeIndex (h : Hnsw) (n : Nat) : Except Err Hnsw :=
  if n < h.points.length then .error .hnswResizeTooSmall
  else .ok { h with capacity := n }

/-- Ascending insertion by distance into a sorted list of (label, distance). -/
def insertPair (x : Nat × ℚ) : List (Nat × ℚ) → List (Nat × ℚ)
  | [] => [x]
  | y :: ys => if x.2 ≤ y.2 then x :: y :: ys else y :: insertPair x ys

/-- Sort (label, distance) pairs ascending by distance. -/
def sortPairsByDist (l : List (Nat × ℚ)) : List (Nat × ℚ) :=
  l.foldr insertPair []

/-- hnswlib `searchKnn(query, k, filterFn)` under an explicit distance
function: the k nearest stored, non-tombstoned points passing the optional
label predicate, nearest first. -/
def Hnsw.searchKnn (h : Hnsw) (dist : List ℚ → List ℚ → ℚ) (query : List ℚ)
    (k : Nat) (filt : Option (Nat → Bool)) : List (Nat × ℚ) :=
  let candidates := h.points.filter fun p =>
    !(h.deleted.contains p.1) && (match filt with | some f => f p.1 | none => true)
  (sortPairsByDist (candidates.map fun p => (p.1, dist query p.2))).take k

/-- `IndexConfig` (src/types/index-config.ts) after validation:
`indexResizeFactor` carries the validator's default 1 when absent. -/
structure IndexConfig where
  id : String
  persistDirectory : String
  numberOfDimensions : Nat
  maxElements : Option Nat
  sizeOfDynamicListOfNearestNeighbors : Option Nat
  indexResizeFactor : ℚ
deriving DecidableEq, Repr

/-- `IndexMetadata` restricted to the mutable field the code reads: the
cumulative element counter.  (The space name is the constant "cosine" and
`timeCreated` is a wall-clock timestamp; neither is consulted again.) -/
structure IndexMetadata where
  elements : Nat
deriving DecidableEq, Repr

/-- One record handed to `DbIndex.add` (src/types/index-data.ts). -/
structure IndexData where
  id : String
  embedding : List ℚ
deriving DecidableEq, Repr

/-- One hit of `DbIndex.search` (src/types/index-search-result.ts): the id is
read back through `labelToId` and can be `undefined`, the embedding through
`getPoint`. -/
structure IndexSearchResult where
  id : Option String
  distance : ℚ
  embedding : Option (List ℚ)
deriving DecidableEq, Repr

/-- The in-memory state of one `DbIndex` (src/unnamed/part_001 lines 13-32)
plus the filesystem `fs` its snapshots live in (path to stored hnsw binary).
`saveFolder` starts `undefined` (`none`): the constructor never assigns it,
only `initIndex` does. -/
structure DbIndexState where
  config : IndexConfig
  index : Option Hnsw
  indexMetadata : Option IndexMetadata
  saveFolder : Option String
  idToLabel : List (String × Nat)
  labelToId : List (Nat × String)
  fs : List (String × Hnsw)
deriving DecidableEq, Repr

/-- The snapshot path `` `${this._saveFolder}/index_${id}.bin` ``: a JS
template string renders an `undefined` folder as the text "undefined". -/
def savePathOf (folder : Option String) (id : String) : String :=
  (folder.getD "undefined") ++ "/index_" ++ id ++ ".bin"

/-- `save()` (part_001 lines 57-69): writes the hnsw binary — and nothing
else; the id maps and the metadata are not part of the snapshot — to the
snapshot path; with no index it returns without writing. -/
def DbIndex.save (s : DbIndexState) : DbIndexState :=
  match s.index with
  | none => s
  | some h => { s with fs := setKV s.fs (savePathOf s.saveFolder s.config.id) h }

/-- `load()` (part_001 lines 71-86): reads the path built from
`this._saveFolder` — still `undefined` at construction time — and loads the
hnsw binary if that path exists; metadata, maps and `saveFolder` stay as they
were. -/
def DbIndex.load (s : DbIndexState) : DbIndexState :=
  match getKV s.fs (savePathOf s.saveFolder s.config.id) with
  | none => s
  | some h => { s with index := some h }

/-- The `DbIndex` constructor (part_001 lines 22-32) over a given filesystem:
empty maps, no index, no metadata, then `load()`. -/
def DbIndex.new (cfg : IndexConfig) (fs : List (String × Hnsw)) : DbIndexState :=
  DbIndex.load
    { config := cfg, index := none, indexMetadata := none, saveFolder := none,
      idToLabel := [], labelToId := [], fs := fs }

/-- `initIndex()` (part_001 lines 34-55): fresh hnsw structure at the
configured or default (1000) capacity, counter reset to 0, `_saveFolder`
assigned, then an immediate `save()`. -/
def DbIndex.initIndex (s : DbIndexState) : DbIndexState :=
  DbIndex.save
    { s with
      index := some
        { dim := s.config.numberOfDimensions,
          capacity := s.config.maxElements.getD 1000,
          points := [], deleted := [] },
      indexMetadata := some { elements := 0 },
      saveFolder := some (s.config.persistDirectory ++ "/index") }

/-- The JS truthiness test `if (this.idToLabel[id])`: `undefined` and `0` are
falsy, every other number truthy. -/
def truthyLabel : Option Nat → Bool
  | none => false
  | some l => l ≠ 0

/-- The first loop of `add` (part_001 lines 109-123): per record, a truthy
existing label means skip (update mode) or throw DuplicateId; otherwise the
counter is incremented and its new value becomes the record's label in both
maps.  Reading `elements` off a `null` metadata object throws. -/
def assignLoop (s : DbIndexState) (data : List IndexData) (upd : Bool) :
    Option Err × DbIndexState :=
  match data with
  | [] => (none, s)
  | d :: rest =>
    if truthyLabel (getKV s.idToLabel d.id) then
      if upd then assignLoop s rest upd
      else (some .duplicateId, s)
    else
      match s.indexMetadata with
      | none => (some .jsTypeError, s)
      | some m =>
        let nextLabel := m.elements + 1
        assignLoop
          { s with
            indexMetadata := some { elements := nextLabel },
            idToLabel := setKV s.idToLabel d.id nextLabel,
            labelToId := setKV s.labelToId nextLabel d.id } rest upd

/-- The target the resize branch of `add` computes (part_001 lines 126-129):
`Math.max(elements * resizeFactor, 1000)`, truncated to an integer by the
binding. -/
def resizeTarget (elements : Nat) (factor : ℚ) : Nat :=
  max ((Rat.floor ((elements : ℚ) * factor)).toNat) 1000

/-- The second loop of `add` (part_001 lines 133-135): `addPoint` each record
at its mapped label. -/
def addPointsLoop (s : DbIndexState) (data : List IndexData) :
    Option Err × DbIndexState :=
  match data with
  | [] => (none, s)
  | d :: rest =>
    match s.index with
    | none => (some .jsTypeError, s)
    | some h =>
      match h.addPoint d.embedding (getKV s.idToLabel d.id) with
      | .error e => (some e, s)
      | .ok h2 => addPointsLoop { s with index := some h2 } rest

/-- The body of `add` once the index surely exists (part_001 lines 103-137):
the dimension check against the FIRST record only
(`indexData[0].embedding.length`), the label-assignment loop, the resize
branch comparing the counter against `getCurrentCount()`, the `addPoint`
loop, and a final `save()`. -/
def DbIndex.addGo (s : DbIndexState) (indexData : List IndexData)
    (upd : Bool) : Option Err × DbIndexState :=
  match indexData with
  | [] => (some .jsTypeError, s)
  | d0 :: _ =>
    let dimension := d0.embedding.length
    match s.index with
    | none => (some .jsTypeError, s)
    | some h =>
      if dimension ≠ h.dim then (some .dimensionMismatch, s)
      else
        match assignLoop s indexData upd with
        | (some e, s1) => (some e, s1)
        | (none, s1) =>
          match s1.index, s1.indexMetadata with
          | some h1, some m1 =>
            if m1.elements > h1.points.length then
              match h1.resizeIndex (resizeTarget m1.elements s1.config.indexResizeFactor) with
              | .error e => (some e, s1)
              | .ok h2 =>
                match addPointsLoop { s1 with index := some h2 } indexData with
                | (some e, s3) => (some e, s3)
                | (none, s3) => (none, DbIndex.save s3)
            else
              match addPointsLoop s1 indexData with
              | (some e, s3) => (some e, s3)
              | (none, s3) => (none, DbIndex.save s3)
          | _, _ => (some .jsTypeError, s1)

/-- `add(indexData, update)` (part_001 lines 96-138): reading
`indexData[0]` throws on an empty batch, a missing index is initialized (and
persisted) before anything else happens, then the body `addGo` runs. -/
def DbIndex.add (s0 : DbIndexState) (indexData : List IndexData)
    (upd : Bool) : Option Err × DbIndexState :=
  match indexData with
  | [] => (some .jsTypeError, s0)
  | _ :: _ =>
    DbIndex.addGo (if s0.index.isNone then DbIndex.initIndex s0 else s0)
      indexData upd

/-- The loop of `delete(ids)` (part_001 lines 141-147): look the label up
(`undefined` for an unmapped id — `markDelete(undefined)` then throws, as does
`markDelete` on a `null` index), tombstone it, remove both map entries. -/
def deleteLoop (s : DbIndexState) (ids : List String) :
    Option Err × DbIndexState :=
  match ids with
  | [] => (none, s)
  | id :: rest =>
    match s.index with
    | none => (some .jsTypeError, s)
    | some h =>
      match getKV s.idToLabel id with
      | none => (some .jsTypeError, s)
      | some lbl =>
        match h.markDelete lbl with
        | .error e => (some e, s)
        | .ok h2 =>
          deleteLoop
            { s with index := some h2,
                     labelToId := delKV s.labelToId lbl,
                     idToLabel := delKV s.idToLabel id } rest

/-- `delete(ids)` (part_001 lines 140-150): the loop, then a full snapshot —
persisted only when the loop survived every id. -/
def DbIndex.delete (s : DbIndexState) (ids : List String) :
    Option Err × DbIndexState :=
  match deleteLoop s ids with
  | (some e, s1) => (some e, s1)
  | (none, s1) => (none, DbIndex.save s1)

/-- The JS `Set.add`: appended only when not yet present (insertion order
kept). -/
def jsSetAdd (s : List (Option Nat)) (x : Option Nat) : List (Option Nat) :=
  if x ∈ s then s else s ++ [x]

/-- The label set `search` builds from a non-empty id filter (part_001 lines
175-179): each id contributes `idToLabel[id]` — a live id its label, a dead
id the single shared `undefined` entry of the set. -/
def labelSetOf (idToLabel : List (String × Nat)) (ids : List String) :
    List (Option Nat) :=
  ids.foldl (fun acc id => jsSetAdd acc (getKV idToLabel id)) []

/-- Ascending insertion of a hit by distance. -/
def insertHit (x : IndexSearchResult) :
    List IndexSearchResult → List IndexSearchResult
  | [] => [x]
  | y :: ys => if x.distance ≤ y.distance then x :: y :: ys else y :: insertHit x ys

/-- The final `.sort((a, b) => a.distance - b.distance)` of `search`. -/
def sortHits (l : List IndexSearchResult) : List IndexSearchResult :=
  l.foldr insertHit []

/-- The pre-process, query and post-process of `search` once its three
guards have passed (part_001 lines 174-201): the label set of a non-empty id
filter (dead ids contributing the set's one `undefined` entry), the clamp of
`k` to the set's size, the filter predicate (absent when no ids were given),
the k-NN call, and the hits mapped back through `labelToId`/`getPoint` and
sorted by distance. -/
def searchBody (s : DbIndexState) (h : Hnsw) (dist : List ℚ → List ℚ → ℚ)
    (query : List ℚ) (k : Nat) (ids : List String) : List IndexSearchResult :=
  let labels := if ids.isEmpty then [] else labelSetOf s.idToLabel ids
  let k2 := if !ids.isEmpty && labels.length < k then labels.length else k
  let filt : Option (Nat → Bool) :=
    if !labels.isEmpty then some (fun l => labels.contains (some l)) else none
  sortHits ((h.searchKnn dist query k2 filt).map fun p =>
    { id := getKV s.labelToId p.1, distance := p.2,
      embedding := getKV h.points p.1 })

/-- `search(query, k, ids)` (part_001 lines 152-202): uninitialized-index
and query-dimension guards; the `k > this._indexMetadata.elements` guard
against the CUMULATIVE counter, before any filter handling; then
`searchBody`. -/
def DbIndex.search (s : DbIndexState) (dist : List ℚ → List ℚ → ℚ)
    (query : List ℚ) (k : Nat) (ids : List String) :
    Except Err (List IndexSearchResult) :=
  match s.index with
  | none => .error .invalidIndexState
  | some h =>
    if query.length ≠ h.dim then .error .dimensionMismatch
    else
      match s.indexMetadata with
      | none => .error .jsTypeError
      | some m =>
        if k > m.elements then .error .requestedCountExceedsAvailable
        else .ok (searchBody s h dist query k ids)

/-- One mutating operation on a `DbIndex`. -/
inductive IndexOp where
  | addOp (data : List IndexData) (upd : Bool)
  | deleteOp (ids : List String)

/-- Apply one operation, keeping the state a thrown error leaves behind. -/
def applyOp (s : DbIndexState) : IndexOp → Option Err × DbIndexState
  | .addOp data u => DbIndex.add s data u
  | .deleteOp ids => DbIndex.delete s ids

/-- Run a sequence of `addVectors`/`deleteVectors` calls. -/
def runOps (s : DbIndexState) (ops : List IndexOp) : DbIndexState :=
  ops.foldl (fun t op => (applyOp t op).2) s

/-- The cumulative element counter an outside observer reads (0 while the
metadata object is still `null`). -/
def elementsOf (s : DbIndexState) : Nat :=
  match s.indexMetadata with
  | some m => m.elements
  | none => 0

/-- The tombstoned labels of the underlying structure. -/
def deletedOf (s : DbIndexState) : List Nat :=
  match s.index with
  | some h => h.deleted
  | none => []

/-- The capacity of the underlying structure (0 while uninitialized). -/
def capacityOf (s : DbIndexState) : Nat :=
  match s.index with
  | some h => h.capacity
  | none => 0

/-- A squared euclidean distance over ℚ: a concrete stand-in metric for the
closed evaluations (the theorems quantify over the metric). -/
def sqDist (a b : List ℚ) : ℚ :=
  ((List.zipWith (fun x y => (x - y) * (x - y)) a b).foldr (· + ·) 0)

/-- A collection row (src/types/collection-row.ts); `metadata` is the
stringified metadata blob. -/
structure CollectionRow where
  id : String
  name : String
  metadata : String
deriving DecidableEq, Repr

/-- An embeddings-table row (src/types/embedding-row.ts); the optional
columns are `undefined` when absent.  The embedding column's TEXT
serialization (`toString()` on insert, `JSON.stringify` on update — an
inconsistency of the source) is elided: the column holds the vector
itself. -/
structure EmbeddingRow where
  id : String
  collectionId : String
  embedding : List ℚ
  document : Option String
  documentId : Option String
  arg1 : Option String
  arg2 : Option String
  arg3 : Option String
deriving DecidableEq, Repr

/-- The relational state of `SqliteDb` (src/unnamed/part_000): the two tables
and the process-wide index cache. -/
structure SqliteState where
  collections : List CollectionRow
  embeddings : List EmbeddingRow
  indexCache : List (String × DbIndexState)
deriving DecidableEq, Repr

/-- `getCollectionByName` (part_000 lines 381-387): the query filters the
`id` column with the NAME — `.where("id", collectionName)` — so a row is
found only when a collection's id equals the requested name. -/
def SqliteDb.getCollectionByName (st : SqliteState) (collectionName : String) :
    Option CollectionRow :=
  st.collections.find? fun r => r.id = collectionName

/-- `createCollection` (part_000 lines 92-121) given the generated short
uuid: the (broken) name lookup and the getOrCreate/AlreadyExists branch are
as in the source; the insert statement, however, calls the imported `knex`
FACTORY — `knex(COLLECTIONS_TABLE_NAME)` at line 115 — instead of
`this._knex`, a call that throws its missing-client configuration error
rather than inserting anything (and the collections DDL at lines 43-48
carries a trailing comma, a SQLite syntax error, so the instance's
collections table and its UNIQUE(name) constraint are never created either).
The insert path therefore always throws: no row is added and the eager index
registration below it is never reached. -/
def SqliteDb.createCollection (st : SqliteState) (freshId : String)
    (name : String) (metadata : String) (getOrCreate : Bool) :
    Except Err CollectionRow × SqliteState :=
  match SqliteDb.getCollectionByName st name with
  | some existing =>
    if getOrCreate then (.ok existing, st) else (.error .alreadyExists, st)
  | none => (.error .knexMisconfigured, st)

/-- Decidable equality of `Except` results, for the closed evaluations. -/
instance {e a : Type} [DecidableEq e] [DecidableEq a] : DecidableEq (Except e a) :=
  fun x y =>
    match x, y with
    | .ok v, .ok w => if h : v = w then .isTrue (by rw [h]) else .isFalse (by simp [h])
    | .error v, .error w => if h : v = w then .isTrue (by rw [h]) else .isFalse (by simp [h])
    | .ok _, .error _ => .isFalse (by simp)
    | .error _, .ok _ => .isFalse (by simp)

section MainProofs

attribute [local semireducible] Rat.add Rat.mul Rat.sub Rat.inv

/-! ### Concrete fixtures for the closed evaluations -/

/-- A one-dimensional collection "c1" with default capacity and resize
factor. -/
def cfgA : IndexConfig :=
  { id := "c1", persistDirectory := "/data", numberOfDimensions := 1,
    maxElements := none, sizeOfDynamicListOfNearestNeighbors := none,
    indexResizeFactor := 1 }

/-- A one-dimensional collection "c2" created with `maxElements = 2`. -/
def cfgB : IndexConfig :=
  { id := "c2", persistDirectory := "/data", numberOfDimensions := 1,
    maxElements := some 2, sizeOfDynamicListOfNearestNeighbors := none,
    indexResizeFactor := 1 }

/-- A two-dimensional collection "c3". -/
def cfgC : IndexConfig :=
  { id := "c3", persistDirectory := "/data", numberOfDimensions := 2,
    maxElements := none, sizeOfDynamicListOfNearestNeighbors := none,
    indexResizeFactor := 1 }

/-- The index of `cfgA` after one successful insert of "a" ↦ [1]. -/
def stateA1 : DbIndexState :=
  (DbIndex.add (DbIndex.new cfgA []) [⟨"a", [1]⟩] false).2

/-- The index of `cfgA` after inserting "a" ↦ [1], "b" ↦ [2], "c" ↦ [3]. -/
def stateA3 : DbIndexState :=
  (DbIndex.add (DbIndex.new cfgA []) [⟨"a", [1]⟩, ⟨"b", [2]⟩, ⟨"c", [3]⟩] false).2

/-- `stateA3` after `deleteVectors(["a"])`: two live ids, counter still 3. -/
def stateA3d : DbIndexState :=
  (DbIndex.delete stateA3 ["a"]).2

/-- The invariant tying the two id/label maps, the cumulative counter and the
tombstones of one `DbIndex` together. -/
structure MapsInv (s : DbIndexState) : Prop where
  toLabel_toId : ∀ id l, getKV s.idToLabel id = some l → getKV s.labelToId l = some id
  toId_toLabel : ∀ l id, getKV s.labelToId l = some id → getKV s.idToLabel id = some l
  label_bounds : ∀ id l, getKV s.idToLabel id = some l → 1 ≤ l ∧ l ≤ elementsOf s
  deleted_le : ∀ l, l ∈ deletedOf s → l ≤ elementsOf s
  deleted_dead : ∀ l, l ∈ deletedOf s → getKV s.labelToId l = none
  meta_none : s.indexMetadata = none → s.idToLabel = [] ∧ s.labelToId = []
  index_none : s.index = none →
    s.idToLabel = [] ∧ s.labelToId = [] ∧ s.indexMetadata = none

/-- An id that holds no label and that no label maps back to. -/
def IdAbsent (s : DbIndexState) (id : String) : Prop :=
  getKV s.idToLabel id = none ∧ ∀ l, getKV s.labelToId l ≠ some id

/-- Whether an operation hands `id` to `addVectors`. -/
def opAddsId (op : IndexOp) (id : String) : Prop :=
  match op with
  | .addOp data _ => id ∈ data.map IndexData.id
  | .deleteOp _ => False

/-- How one mutating call may change the maps: the counter never drops,
tombstones are never cleared, and any NEW map entry carries a label strictly
above the old counter and an id from `names` (the batch the call was given).
-/
def EvolvesVia (names : List String) (s t : DbIndexState) : Prop :=
  elementsOf s ≤ elementsOf t ∧
  (∀ l, l ∈ deletedOf s → l ∈ deletedOf t) ∧
  (∀ id l, getKV t.idToLabel id = some l →
    getKV s.idToLabel id = some l ∨ (elementsOf s < l ∧ id ∈ names)) ∧
  (∀ l id, getKV t.labelToId l = some id →
    getKV s.labelToId l = some id ∨ (elementsOf s < l ∧ id ∈ names))

/-- The ids an operation may introduce into the maps. -/
def opNames : IndexOp → List String
  | .addOp data _ => data.map IndexData.id
  | .deleteOp _ => []

/-! ### Association-list lemmas -/

theorem getKV_delKV {α β : Type} [DecidableEq α] (m : List (α × β)) (k k2 : α) :
    getKV (delKV m k) k2 = if k2 = k then none else getKV m k2 := by
  induction m with
  | nil => simp [getKV, delKV]
  | cons p rest ih =>
    show getKV (if p.1 = k then delKV rest k else p :: delKV rest k) k2 = _
    by_cases hp : p.1 = k
    · rw [if_pos hp, ih]
      by_cases hk : k2 = k
      · rw [if_pos hk, if_pos hk]
      · have hpk2 : ¬ p.1 = k2 := fun h => hk (h ▸ hp)
        rw [if_neg hk, if_neg hk]
        show getKV rest k2 = getKV (p :: rest) k2
        simp [getKV, hpk2]
    · rw [if_neg hp]
      show (if p.1 = k2 then some p.2 else getKV (delKV rest k) k2) = _
      by_cases hq : p.1 = k2
      · have hk : ¬ k2 = k := fun h => hp (hq.trans h)
        rw [if_pos hq, if_neg hk]
        simp [getKV, hq]
      · rw [if_neg hq, ih]
        by_cases hk : k2 = k
        · rw [if_pos hk, if_pos hk]
        · rw [if_neg hk, if_neg hk]
          simp [getKV, hq]

theorem getKV_setKV {α β : Type} [DecidableEq α] (m : List (α × β)) (k k2 : α)
    (v : β) :
    getKV (setKV m k v) k2 = if k2 = k then some v else getKV m k2 := by
  by_cases hk : k2 = k
  · simp [setKV, getKV, hk]
  · have hkk : ¬ k = k2 := fun h => hk h.symm
    simp [setKV, getKV, hkk, hk, getKV_delKV]

/-! ### Closed evaluations settling the persistence, coordinator and
error-path claims -/

/-- C2 (code bug): one insert persists the snapshot at
"/data/index/index_c1.bin" and the original index answers the query, but a
`DbIndex` constructed afresh over that very filesystem loads nothing —
`load()` builds its path from the still-unassigned `_saveFolder` — so its
index stays `none` and the identical query fails with InvalidIndexState
instead of returning identical results. -/
theorem c2_snapshot_not_reloaded :
    (DbIndex.add (DbIndex.new cfgA []) [⟨"a", [1]⟩] false).1 = none ∧
    (getKV stateA1.fs "/data/index/index_c1.bin").isSome = true ∧
    DbIndex.search stateA1 sqDist [1] 1 [] =
      .ok [{ id := some "a", distance := 0, embedding := some [1] }] ∧
    (DbIndex.new cfgA stateA1.fs).index = none ∧
    DbIndex.search (DbIndex.new cfgA stateA1.fs) sqDist [1] 1 [] =
      .error .invalidIndexState := by
  decide

/-- A registry whose collections table already holds a row named "docs"
with id "u1" — placed there directly, since the program's own insert path
cannot create it (see `SqliteDb.createCollection`). -/
def stDocs : SqliteState :=
  { collections := [{ id := "u1", name := "docs", metadata := "m" }],
    embeddings := [], indexCache := [] }

/-- C3 (code bug): the claimed behaviors are unreachable.  The very first
`createCollection("docs")` on an empty registry already throws — its insert
line calls the imported `knex` factory instead of `this._knex` — and adds no
row.  And even in a registry that does hold the row (name "docs", id "u1"),
`getCollectionByName` matches the `id` column against the name and finds
nothing, so the repeated call with `getOrCreate = false` does not fail with
AlreadyExists and with `getOrCreate = true` does not return the original
collection: both fall through to the insert and throw the same knex error,
mutating nothing. -/
theorem c3_duplicate_name_undetected :
    SqliteDb.createCollection
        { collections := [], embeddings := [], indexCache := [] }
        "u1" "docs" "m" false =
      (.error .knexMisconfigured,
        { collections := [], embeddings := [], indexCache := [] }) ∧
    stDocs.collections = [{ id := "u1", name := "docs", metadata := "m" }] ∧
    SqliteDb.getCollectionByName stDocs "docs" = none ∧
    SqliteDb.createCollection stDocs "u2" "docs" "m" false =
      (.error .knexMisconfigured, stDocs) ∧
    SqliteDb.createCollection stDocs "u2" "docs" "m" true =
      (.error .knexMisconfigured, stDocs) := by
  decide

/-- C4 counterexample: in `stateA3d` the live ids are exactly "b" and "c"
(two of them) while the cumulative counter is 3; a search with k = 3 — more
than the live count — does NOT fail with RequestedCountExceedsAvailable as
the claim demands, it succeeds. -/
theorem c4_counterexample :
    stateA3d.idToLabel = [("c", 3), ("b", 2)] ∧
    elementsOf stateA3d = 3 ∧
    DbIndex.search stateA3d sqDist [0] 3 [] =
      .ok [{ id := some "b", distance := 4, embedding := some [2] },
           { id := some "c", distance := 9, embedding := some [3] }] := by
  decide

/-- C5 counterexample: the collection is created with capacity 2
(`maxElements = 2`); after a single insert the counter is 1, which does not
exceed that capacity, yet the capacity has been changed to 1000 — growth is
not triggered by counter > capacity but by counter > stored-point count. -/
theorem c5_counterexample :
    cfgB.maxElements = some 2 ∧
    (DbIndex.add (DbIndex.new cfgB []) [⟨"a", [1]⟩] false).1 = none ∧
    elementsOf (DbIndex.add (DbIndex.new cfgB []) [⟨"a", [1]⟩] false).2 = 1 ∧
    capacityOf (DbIndex.add (DbIndex.new cfgB []) [⟨"a", [1]⟩] false).2 = 1000 := by
  decide

/-- C6 counterexample: a batch on a two-dimensional index whose FIRST record
has the right length and whose second is wrong does not fail with
DimensionMismatch — the wrong length is only hit inside the underlying
`addPoint` — and the call mutates freely: the counter reaches 2, "b" holds
label 2, and the (empty) index was initialized and persisted. -/
theorem c6_counterexample :
    (DbIndex.add (DbIndex.new cfgC []) [⟨"a", [1, 0]⟩, ⟨"b", [1]⟩] false).1 =
      some .hnswInvalidArrayLength ∧
    elementsOf (DbIndex.add (DbIndex.new cfgC []) [⟨"a", [1, 0]⟩, ⟨"b", [1]⟩] false).2 = 2 ∧
    getKV (DbIndex.add (DbIndex.new cfgC []) [⟨"a", [1, 0]⟩, ⟨"b", [1]⟩] false).2.idToLabel
      "b" = some 2 ∧
    (DbIndex.add (DbIndex.new cfgC []) [⟨"a", [1, 0]⟩, ⟨"b", [1]⟩] false).2.fs ≠ [] := by
  decide

/-- C8 counterexample: three live elements, an id filter naming two of them,
and k = 5: the claim demands silent clamping to the subset size and success,
but the `k > elements` guard runs first and the call fails with
RequestedCountExceedsAvailable. -/
theorem c8_counterexample :
    getKV stateA3.idToLabel "a" = some 1 ∧
    getKV stateA3.idToLabel "b" = some 2 ∧
    elementsOf stateA3 = 3 ∧
    DbIndex.search stateA3 sqDist [0] 5 ["a", "b"] =
      .error .requestedCountExceedsAvailable := by
  decide

/-! ### The dimension check looks at the first record only -/

/-- C6 amended: with an already initialized index, a first record of the
wrong length fails with DimensionMismatch and the state is returned exactly
as it was — nothing is mutated.  (The lengths of later records are never
compared against the index dimensionality: see `c6_counterexample`.) -/
theorem c6_first_record_only (s : DbIndexState) (h : Hnsw) (d0 : IndexData)
    (rest : List IndexData) (u : Bool) (hi : s.index = some h)
    (hd : d0.embedding.length ≠ h.dim) :
    DbIndex.add s (d0 :: rest) u = (some .dimensionMismatch, s) := by
  simp [DbIndex.add, DbIndex.addGo, hi, hd]

/-- Witness for `c6_first_record_only`: the initialized one-dimensional index
`stateA1` rejects a batch whose first record is two-dimensional, unchanged. -/
theorem c6_witness :
    DbIndex.add stateA1 [⟨"x", [1, 2]⟩, ⟨"y", [3]⟩] false =
      (some .dimensionMismatch, stateA1) :=
  c6_first_record_only stateA1
    { dim := 1, capacity := 1000, points := [(1, [1])], deleted := [] }
    ⟨"x", [1, 2]⟩ [⟨"y", [3]⟩] false (by decide) (by decide)

/-! ### The k guard of search: cumulative counter, before clamping -/

/-- C4 amended: `search` fails with RequestedCountExceedsAvailable exactly
when the index is initialized, the query length matches, and k exceeds the
CUMULATIVE assignment counter — which deletions leave untouched; the live
count is never consulted and the id filter is only resolved afterwards. -/
theorem c4_rcea_iff (s : DbIndexState) (dist : List ℚ → List ℚ → ℚ)
    (query : List ℚ) (k : Nat) (ids : List String) :
    DbIndex.search s dist query k ids = .error .requestedCountExceedsAvailable ↔
      ∃ h m, s.index = some h ∧ query.length = h.dim ∧
        s.indexMetadata = some m ∧ m.elements < k := by
  unfold DbIndex.search
  cases hi : s.index with
  | none => simp [hi]
  | some h =>
    by_cases hq : query.length = h.dim
    · cases hm : s.indexMetadata with
      | none => simp [hi, hm, hq]
      | some m =>
        by_cases hk : k > m.elements
        · simp [hi, hm, hq, hk]
        · simp [hi, hm, hq, hk]
    · simp [hi, hq]

/-! ### deleteVectors and dead ids -/

/-- The delete loop: it never touches the filesystem; it throws as soon as it
meets an id with no label (the binding rejects `markDelete(undefined)`); and
when it survives, every id in the list had a label when the call began. -/
theorem deleteLoop_spec1 (s : DbIndexState) (ids : List String) :
    (deleteLoop s ids).2.fs = s.fs ∧
    ((∃ id ∈ ids, getKV s.idToLabel id = none) →
      ((deleteLoop s ids).1).isSome = true) ∧
    ((deleteLoop s ids).1 = none →
      ∀ id ∈ ids, (getKV s.idToLabel id).isSome = true) := by
  induction ids generalizing s with
  | nil => simp [deleteLoop]
  | cons id rest ih =>
    cases hi : s.index with
    | none => simp [deleteLoop, hi]
    | some h =>
      cases hl : getKV s.idToLabel id with
      | none => simp [deleteLoop, hi, hl]
      | some lbl =>
        cases hm : h.markDelete lbl with
        | error e =>
          simp [deleteLoop, hi, hl, hm]
        | ok h2 =>
          obtain ⟨hfs, hdead, hok⟩ := ih
            (s := { s with index := some h2,
                           labelToId := delKV s.labelToId lbl,
                           idToLabel := delKV s.idToLabel id })
          simp only [deleteLoop, hi, hl, hm]
          refine ⟨hfs, ?_, ?_⟩
          · rintro ⟨id2, hmem, hnone⟩
            rcases List.mem_cons.mp hmem with heq | htail
            · rw [heq] at hnone
              rw [hnone] at hl
              exact absurd hl (by simp)
            · apply hdead
              refine ⟨id2, htail, ?_⟩
              show getKV (delKV s.idToLabel id) id2 = none
              rw [getKV_delKV]
              by_cases he : id2 = id
              · simp [he]
              · simp [he, hnone]
          · intro hnone id2 hmem
            rcases List.mem_cons.mp hmem with heq | htail
            · rw [heq, hl]
              rfl
            · have := hok hnone id2 htail
              revert this
              show (getKV (delKV s.idToLabel id) id2).isSome = true → _
              rw [getKV_delKV]
              by_cases he : id2 = id
              · simp [he]
              · simp [he]

/-- C10: a `deleteVectors` call containing an id with no current label is not
a no-op skip — it throws (via `markDelete` on an undefined label) and no
snapshot is persisted, the filesystem staying as it was; and `deleteVectors`
returns without error only when every id in the argument list had a label
when the call began. -/
theorem c10_delete_requires_live (s : DbIndexState) (ids : List String) :
    ((∃ id ∈ ids, getKV s.idToLabel id = none) →
        ((DbIndex.delete s ids).1).isSome = true ∧
        (DbIndex.delete s ids).2.fs = s.fs) ∧
    (∀ s2, DbIndex.delete s ids = (none, s2) →
        ∀ id ∈ ids, (getKV s.idToLabel id).isSome = true) := by
  obtain ⟨hfs, hdead, hok⟩ := deleteLoop_spec1 s ids
  constructor
  · intro hex
    have hsome := hdead hex
    unfold DbIndex.delete
    cases hr : deleteLoop s ids with
    | mk e s1 =>
      cases e with
      | none => rw [hr] at hsome; simp at hsome
      | some e0 =>
        constructor
        · simp
        · have : s1.fs = s.fs := by rw [hr] at hfs; exact hfs
          simpa using this
  · intro s2 hr
    apply hok
    unfold DbIndex.delete at hr
    cases hr2 : deleteLoop s ids with
    | mk e s1 =>
      cases e with
      | none => rfl
      | some e0 => rw [hr2] at hr; simp at hr

/-! ### Invariant plumbing -/

theorem elementsOf_congr (s t : DbIndexState)
    (h : t.indexMetadata = s.indexMetadata) : elementsOf t = elementsOf s := by
  unfold elementsOf
  rw [h]

theorem mapsInv_of_eq (s t : DbIndexState) (h1 : t.idToLabel = s.idToLabel)
    (h2 : t.labelToId = s.labelToId) (h3 : t.indexMetadata = s.indexMetadata)
    (h4 : deletedOf t = deletedOf s)
    (h5 : t.index = none → s.index = none) (hinv : MapsInv s) : MapsInv t := by
  have he : elementsOf t = elementsOf s := elementsOf_congr s t h3
  refine ⟨?_, ?_, ?_, ?_, ?_, ?_, ?_⟩
  · intro id l hl
    rw [h2]
    exact hinv.toLabel_toId id l (by rw [h1] at hl; exact hl)
  · intro l id hl
    rw [h1]
    exact hinv.toId_toLabel l id (by rw [h2] at hl; exact hl)
  · intro id l hl
    rw [he]
    exact hinv.label_bounds id l (by rw [h1] at hl; exact hl)
  · intro l hl
    rw [he]
    exact hinv.deleted_le l (by rw [h4] at hl; exact hl)
  · intro l hl
    rw [h2]
    exact hinv.deleted_dead l (by rw [h4] at hl; exact hl)
  · intro hm
    rw [h1, h2]
    exact hinv.meta_none (by rw [h3] at hm; exact hm)
  · intro hi
    obtain ⟨ha, hb, hc⟩ := hinv.index_none (h5 hi)
    exact ⟨by rw [h1, ha], by rw [h2, hb], by rw [h3, hc]⟩

theorem save_fields (s : DbIndexState) :
    (DbIndex.save s).idToLabel = s.idToLabel ∧
    (DbIndex.save s).labelToId = s.labelToId ∧
    (DbIndex.save s).indexMetadata = s.indexMetadata ∧
    (DbIndex.save s).index = s.index ∧
    (DbIndex.save s).config = s.config ∧
    (DbIndex.save s).saveFolder = s.saveFolder := by
  cases hi : s.index with
  | none => simp [DbIndex.save, hi]
  | some h => simp [DbIndex.save, hi]

theorem save_inv (s : DbIndexState) (hinv : MapsInv s) :
    MapsInv (DbIndex.save s) := by
  obtain ⟨h1, h2, h3, h4, h5, h6⟩ := save_fields s
  exact mapsInv_of_eq s (DbIndex.save s) h1 h2 h3
    (by unfold deletedOf; rw [h4]) (by rw [h4]; exact id) hinv

theorem initIndex_fields (s : DbIndexState) :
    (DbIndex.initIndex s).idToLabel = s.idToLabel ∧
    (DbIndex.initIndex s).labelToId = s.labelToId ∧
    (DbIndex.initIndex s).indexMetadata = some { elements := 0 } ∧
    (DbIndex.initIndex s).index = some
      { dim := s.config.numberOfDimensions,
        capacity := s.config.maxElements.getD 1000,
        points := [], deleted := [] } ∧
    (DbIndex.initIndex s).config = s.config := by
  unfold DbIndex.initIndex
  obtain ⟨h1, h2, h3, h4, h5, h6⟩ := save_fields
    { s with
      index := some
        { dim := s.config.numberOfDimensions,
          capacity := s.config.maxElements.getD 1000,
          points := [], deleted := [] },
      indexMetadata := some { elements := 0 },
      saveFolder := some (s.config.persistDirectory ++ "/index") }
  exact ⟨h1, h2, h3, h4, h5⟩

theorem initIndex_inv (s : DbIndexState) (hinv : MapsInv s)
    (hi : s.index = none) : MapsInv (DbIndex.initIndex s) := by
  obtain ⟨hm1, hm2, hm3⟩ := hinv.index_none hi
  obtain ⟨h1, h2, h3, h4, h5⟩ := initIndex_fields s
  have hid : (DbIndex.initIndex s).idToLabel = [] := by rw [h1, hm1]
  have hlb : (DbIndex.initIndex s).labelToId = [] := by rw [h2, hm2]
  have hdel : deletedOf (DbIndex.initIndex s) = [] := by
    unfold deletedOf
    rw [h4]
  refine ⟨?_, ?_, ?_, ?_, ?_, ?_, ?_⟩
  · intro id l hl
    rw [hid] at hl
    simp [getKV] at hl
  · intro l id hl
    rw [hlb] at hl
    simp [getKV] at hl
  · intro id l hl
    rw [hid] at hl
    simp [getKV] at hl
  · intro l hl
    rw [hdel] at hl
    simp at hl
  · intro l hl
    rw [hdel] at hl
    simp at hl
  · intro _
    exact ⟨hid, hlb⟩
  · intro hnone
    rw [h4] at hnone
    simp at hnone

theorem new_inv (cfg : IndexConfig) : MapsInv (DbIndex.new cfg []) := by
  refine ⟨?_, ?_, ?_, ?_, ?_, ?_, ?_⟩ <;>
    simp [DbIndex.new, DbIndex.load, getKV, elementsOf, deletedOf]

/-! ### The label-assignment loop -/

theorem assignLoop_fields (data : List IndexData) (s : DbIndexState) (u : Bool) :
    (assignLoop s data u).2.index = s.index ∧
    (assignLoop s data u).2.fs = s.fs ∧
    (assignLoop s data u).2.saveFolder = s.saveFolder ∧
    (assignLoop s data u).2.config = s.config ∧
    elementsOf s ≤ elementsOf (assignLoop s data u).2 ∧
    ((assignLoop s data u).2.indexMetadata = none → s.indexMetadata = none) ∧
    (∀ id l, getKV (assignLoop s data u).2.idToLabel id = some l →
      getKV s.idToLabel id = some l ∨
        (elementsOf s < l ∧ id ∈ data.map IndexData.id)) ∧
    (∀ l, l ≤ elementsOf s →
      getKV (assignLoop s data u).2.labelToId l = getKV s.labelToId l) ∧
    (∀ l id, getKV (assignLoop s data u).2.labelToId l = some id →
      getKV s.labelToId l = some id ∨
        (elementsOf s < l ∧ id ∈ data.map IndexData.id)) := by
  induction data generalizing s with
  | nil => simp [assignLoop]
  | cons d rest ih =>
    by_cases ht : truthyLabel (getKV s.idToLabel d.id)
    · by_cases hu : u = true
      · subst hu
        obtain ⟨i1, i2, i3, i4, i5, i6, i7, i8, i9⟩ := ih s
        simp only [assignLoop, ht, if_true]
        refine ⟨i1, i2, i3, i4, i5, i6, ?_, i8, ?_⟩
        · intro id l hl
          rcases i7 id l hl with hc | ⟨hc1, hc2⟩
          · exact Or.inl hc
          · exact Or.inr ⟨hc1, by simp [List.map_cons]; right; simpa using hc2⟩
        · intro l id hl
          rcases i9 l id hl with hc | ⟨hc1, hc2⟩
          · exact Or.inl hc
          · exact Or.inr ⟨hc1, by simp [List.map_cons]; right; simpa using hc2⟩
      · simp [assignLoop, ht, hu]
        exact ⟨fun id l hl => Or.inl hl, fun l id hl => Or.inl hl⟩
    · cases hm : s.indexMetadata with
      | none =>
        simp [assignLoop, ht, hm]
        exact ⟨fun id l hl => Or.inl hl, fun l id hl => Or.inl hl⟩
      | some m =>
        set s2 : DbIndexState :=
          { s with
            indexMetadata := some { elements := m.elements + 1 },
            idToLabel := setKV s.idToLabel d.id (m.elements + 1),
            labelToId := setKV s.labelToId (m.elements + 1) d.id } with hs2
        have hrun : assignLoop s (d :: rest) u = assignLoop s2 rest u := by
          simp [assignLoop, ht, hm, hs2]
        have he : elementsOf s = m.elements := by simp [elementsOf, hm]
        have he2 : elementsOf s2 = m.elements + 1 := by simp [elementsOf, hs2]
        obtain ⟨i1, i2, i3, i4, i5, i6, i7, i8, i9⟩ := ih s2
        rw [hrun]
        refine ⟨by rw [i1], by rw [i2], by rw [i3], by rw [i4], ?_, ?_, ?_, ?_, ?_⟩
        · rw [he]
          rw [he2] at i5
          omega
        · intro hnone
          have := i6 hnone
          simp [hs2] at this
        · intro id l hl
          rcases i7 id l hl with hc | ⟨hc1, hc2⟩
          · have : getKV (setKV s.idToLabel d.id (m.elements + 1)) id = some l := hc
            rw [getKV_setKV] at this
            by_cases hid : id = d.id
            · rw [if_pos hid] at this
              injection this with hthis
              subst hthis
              refine Or.inr ⟨?_, ?_⟩
              · rw [he]
                omega
              · simp [hid]
            · rw [if_neg hid] at this
              exact Or.inl this
          · refine Or.inr ⟨?_, ?_⟩
            · rw [he]
              rw [he2] at hc1
              omega
            · simp
              right
              simpa using hc2
        · intro l hle
          rw [he] at hle
          have hle2 : l ≤ elementsOf s2 := by
            rw [he2]
            omega
          rw [i8 l hle2]
          show getKV (setKV s.labelToId (m.elements + 1) d.id) l = _
          rw [getKV_setKV, if_neg (by omega)]
        · intro l id hl
          rcases i9 l id hl with hc | ⟨hc1, hc2⟩
          · have : getKV (setKV s.labelToId (m.elements + 1) d.id) l = some id := hc
            rw [getKV_setKV] at this
            by_cases hll : l = m.elements + 1
            · rw [if_pos hll] at this
              injection this with hthis
              subst hthis
              refine Or.inr ⟨by rw [he]; omega, ?_⟩
              simp
            · rw [if_neg hll] at this
              exact Or.inl this
          · refine Or.inr ⟨?_, ?_⟩
            · rw [he]
              rw [he2] at hc1
              omega
            · simp
              right
              simpa using hc2

theorem truthy_false_none (s : DbIndexState) (hinv : MapsInv s) (id : String)
    (ht : ¬ truthyLabel (getKV s.idToLabel id) = true) :
    getKV s.idToLabel id = none := by
  cases hx : getKV s.idToLabel id with
  | none => rfl
  | some l =>
    rw [hx] at ht
    simp [truthyLabel] at ht
    subst ht
    have := (hinv.label_bounds id 0 hx).1
    omega

theorem assignLoop_inv (data : List IndexData) (s : DbIndexState) (u : Bool)
    (hinv : MapsInv s) : MapsInv (assignLoop s data u).2 := by
  induction data generalizing s with
  | nil => simpa [assignLoop] using hinv
  | cons d rest ih =>
    by_cases ht : truthyLabel (getKV s.idToLabel d.id) = true
    · by_cases hu : u = true
      · subst hu
        simp only [assignLoop, ht, if_true]
        exact ih s hinv
      · simpa [assignLoop, ht, hu] using hinv
    · have hnone := truthy_false_none s hinv d.id ht
      cases hm : s.indexMetadata with
      | none => simpa [assignLoop, ht, hm] using hinv
      | some m =>
        set s2 : DbIndexState :=
          { s with
            indexMetadata := some { elements := m.elements + 1 },
            idToLabel := setKV s.idToLabel d.id (m.elements + 1),
            labelToId := setKV s.labelToId (m.elements + 1) d.id } with hs2
        have hrun : assignLoop s (d :: rest) u = assignLoop s2 rest u := by
          simp [assignLoop, ht, hm, hs2]
        have he : elementsOf s = m.elements := by simp [elementsOf, hm]
        have he2 : elementsOf s2 = m.elements + 1 := by simp [elementsOf, hs2]
        have hdel : deletedOf s2 = deletedOf s := by simp [deletedOf, hs2]
        rw [hrun]
        apply ih
        refine ⟨?_, ?_, ?_, ?_, ?_, ?_, ?_⟩
        · intro id l hl
          have hl2 : getKV (setKV s.idToLabel d.id (m.elements + 1)) id = some l := hl
          rw [getKV_setKV] at hl2
          show getKV (setKV s.labelToId (m.elements + 1) d.id) l = some id
          rw [getKV_setKV]
          by_cases hid : id = d.id
          · rw [if_pos hid] at hl2
            injection hl2 with hl3
            rw [if_pos hl3.symm, hid]
          · rw [if_neg hid] at hl2
            have hb := (hinv.label_bounds id l hl2).2
            rw [he] at hb
            rw [if_neg (by omega)]
            exact hinv.toLabel_toId id l hl2
        · intro l id hl
          have hl2 : getKV (setKV s.labelToId (m.elements + 1) d.id) l = some id := hl
          rw [getKV_setKV] at hl2
          show getKV (setKV s.idToLabel d.id (m.elements + 1)) id = some l
          rw [getKV_setKV]
          by_cases hll : l = m.elements + 1
          · rw [if_pos hll] at hl2
            injection hl2 with hl3
            rw [if_pos hl3.symm, hll]
          · rw [if_neg hll] at hl2
            have hback := hinv.toId_toLabel l id hl2
            have hne : ¬ id = d.id := by
              intro hcontra
              rw [hcontra] at hback
              rw [hback] at hnone
              exact Option.noConfusion hnone
            rw [if_neg hne]
            exact hback
        · intro id l hl
          have hl2 : getKV (setKV s.idToLabel d.id (m.elements + 1)) id = some l := hl
          rw [getKV_setKV] at hl2
          rw [he2]
          by_cases hid : id = d.id
          · rw [if_pos hid] at hl2
            injection hl2 with hl3
            omega
          · rw [if_neg hid] at hl2
            have hb := hinv.label_bounds id l hl2
            rw [he] at hb
            omega
        · intro l hl
          rw [hdel] at hl
          have := hinv.deleted_le l hl
          rw [he] at this
          rw [he2]
          omega
        · intro l hl
          rw [hdel] at hl
          have hd := hinv.deleted_dead l hl
          have hb := hinv.deleted_le l hl
          rw [he] at hb
          show getKV (setKV s.labelToId (m.elements + 1) d.id) l = none
          rw [getKV_setKV, if_neg (by omega)]
          exact hd
        · intro hcontra
          simp [hs2] at hcontra
        · intro hcontra
          have : s.index = none := hcontra
          obtain ⟨ha, hb, hc⟩ := hinv.index_none this
          rw [hc] at hm
          exact Option.noConfusion hm

/-! ### The addPoint loop -/

theorem addPoint_shape (h : Hnsw) (v : List ℚ) (lbl : Option Nat) (h2 : Hnsw)
    (hr : h.addPoint v lbl = .ok h2) :
    h2.deleted = h.deleted ∧ h2.capacity = h.capacity ∧ h2.dim = h.dim := by
  cases lbl with
  | none => simp [Hnsw.addPoint] at hr
  | some l =>
    simp only [Hnsw.addPoint] at hr
    by_cases hv : v.length ≠ h.dim
    · rw [if_pos hv] at hr
      exact absurd hr (by simp)
    · rw [if_neg hv] at hr
      by_cases hp : (getKV h.points l).isSome = true
      · rw [if_pos hp] at hr
        by_cases hdel : l ∈ h.deleted
        · rw [if_pos hdel] at hr
          exact absurd hr (by simp)
        · rw [if_neg hdel] at hr
          injection hr with hr
          subst hr
          exact ⟨rfl, rfl, rfl⟩
      · rw [if_neg hp] at hr
        by_cases hc : h.capacity ≤ h.points.length
        · rw [if_pos hc] at hr
          exact absurd hr (by simp)
        · rw [if_neg hc] at hr
          injection hr with hr
          subst hr
          exact ⟨rfl, rfl, rfl⟩

theorem addPointsLoop_fields (data : List IndexData) (s : DbIndexState) :
    (addPointsLoop s data).2.idToLabel = s.idToLabel ∧
    (addPointsLoop s data).2.labelToId = s.labelToId ∧
    (addPointsLoop s data).2.indexMetadata = s.indexMetadata ∧
    (addPointsLoop s data).2.fs = s.fs ∧
    (addPointsLoop s data).2.saveFolder = s.saveFolder ∧
    (addPointsLoop s data).2.config = s.config ∧
    deletedOf (addPointsLoop s data).2 = deletedOf s ∧
    ((addPointsLoop s data).2.index = none → s.index = none) ∧
    (∀ h, s.index = some h → ∃ h9, (addPointsLoop s data).2.index = some h9 ∧
      h9.capacity = h.capacity ∧ h9.dim = h.dim) := by
  induction data generalizing s with
  | nil =>
    refine ⟨rfl, rfl, rfl, rfl, rfl, rfl, rfl, fun hh => hh, ?_⟩
    intro h hh
    exact ⟨h, hh, rfl, rfl⟩
  | cons d rest ih =>
    cases hi : s.index with
    | none =>
      have hrun : addPointsLoop s (d :: rest) = (some .jsTypeError, s) := by
        simp [addPointsLoop, hi]
      rw [hrun]
      refine ⟨rfl, rfl, rfl, rfl, rfl, rfl, rfl, fun _ => rfl, ?_⟩
      intro h0 hh0
      exact absurd hh0 (by simp)
    | some h =>
      cases hr : h.addPoint d.embedding (getKV s.idToLabel d.id) with
      | error e =>
        have hrun : addPointsLoop s (d :: rest) = (some e, s) := by
          simp [addPointsLoop, hi, hr]
        rw [hrun]
        refine ⟨rfl, rfl, rfl, rfl, rfl, rfl, rfl, ?_, ?_⟩
        · intro hh
          have hh2 : s.index = none := hh
          rw [hi] at hh2
          exact absurd hh2 (by simp)
        · intro h0 hh0
          injection hh0 with hh0
          subst hh0
          exact ⟨h, hi, rfl, rfl⟩
      | ok h2 =>
        obtain ⟨hd, hcap, hdim⟩ := addPoint_shape h d.embedding _ h2 hr
        obtain ⟨i1, i2, i3, i4, i5, i6, i7, i8, i9⟩ :=
          ih { s with index := some h2 }
        have hrun : addPointsLoop s (d :: rest) =
            addPointsLoop { s with index := some h2 } rest := by
          simp [addPointsLoop, hi, hr]
        rw [hrun]
        refine ⟨i1, i2, i3, i4, i5, i6, ?_, ?_, ?_⟩
        · rw [i7]
          simp [deletedOf, hd, hi]
        · intro hcontra
          have := i8 hcontra
          simp at this
        · intro h0 hh0
          injection hh0 with hh0
          subst hh0
          obtain ⟨h9, hh9, hc9, hd9⟩ := i9 h2 rfl
          exact ⟨h9, hh9, by rw [hc9, hcap], by rw [hd9, hdim]⟩

/-! ### The evolution relation -/

theorem evolvesVia_refl (names : List String) (s : DbIndexState) :
    EvolvesVia names s s :=
  ⟨le_refl _, fun _ hl => hl, fun _ _ hl => Or.inl hl, fun _ _ hl => Or.inl hl⟩

theorem evolvesVia_trans (names : List String) (s t v : DbIndexState)
    (h1 : EvolvesVia names s t) (h2 : EvolvesVia names t v) :
    EvolvesVia names s v := by
  obtain ⟨a1, a2, a3, a4⟩ := h1
  obtain ⟨b1, b2, b3, b4⟩ := h2
  refine ⟨le_trans a1 b1, fun l hl => b2 l (a2 l hl), ?_, ?_⟩
  · intro id l hl
    rcases b3 id l hl with hc | ⟨hc1, hc2⟩
    · exact a3 id l hc
    · exact Or.inr ⟨lt_of_le_of_lt a1 hc1, hc2⟩
  · intro l id hl
    rcases b4 l id hl with hc | ⟨hc1, hc2⟩
    · exact a4 l id hc
    · exact Or.inr ⟨lt_of_le_of_lt a1 hc1, hc2⟩

theorem evolvesVia_of_frame (names : List String) (s t : DbIndexState)
    (h1 : t.idToLabel = s.idToLabel) (h2 : t.labelToId = s.labelToId)
    (h3 : t.indexMetadata = s.indexMetadata)
    (h4 : deletedOf t = deletedOf s) : EvolvesVia names s t := by
  refine ⟨le_of_eq (elementsOf_congr s t h3).symm, fun l hl => by rw [h4]; exact hl,
    ?_, ?_⟩
  · intro id l hl
    rw [h1] at hl
    exact Or.inl hl
  · intro l id hl
    rw [h2] at hl
    exact Or.inl hl

theorem evolvesVia_weaken (names names2 : List String) (s t : DbIndexState)
    (hsub : ∀ id, id ∈ names → id ∈ names2)
    (h : EvolvesVia names s t) : EvolvesVia names2 s t := by
  obtain ⟨a1, a2, a3, a4⟩ := h
  refine ⟨a1, a2, ?_, ?_⟩
  · intro id l hl
    rcases a3 id l hl with hc | ⟨hc1, hc2⟩
    · exact Or.inl hc
    · exact Or.inr ⟨hc1, hsub id hc2⟩
  · intro l id hl
    rcases a4 l id hl with hc | ⟨hc1, hc2⟩
    · exact Or.inl hc
    · exact Or.inr ⟨hc1, hsub id hc2⟩

theorem idAbsent_of_evolves (names : List String) (s t : DbIndexState)
    (id : String) (habs : IdAbsent s id) (hnm : id ∉ names)
    (h : EvolvesVia names s t) : IdAbsent t id := by
  obtain ⟨a1, a2, a3, a4⟩ := h
  obtain ⟨c1, c2⟩ := habs
  constructor
  · cases hx : getKV t.idToLabel id with
    | none => rfl
    | some l =>
      rcases a3 id l hx with hc | ⟨_, hc2⟩
      · rw [c1] at hc
        exact Option.noConfusion hc
      · exact absurd hc2 hnm
  · intro l hl
    rcases a4 l id hl with hc | ⟨_, hc2⟩
    · exact c2 l hc
    · exact hnm hc2

/-! ### Shapes of the hnsw mutations -/

theorem markDelete_shape (h : Hnsw) (l : Nat) (h2 : Hnsw)
    (hr : h.markDelete l = .ok h2) :
    h2.deleted = l :: h.deleted ∧ h2.points = h.points ∧
    h2.capacity = h.capacity ∧ h2.dim = h.dim := by
  unfold Hnsw.markDelete at hr
  by_cases hp : (getKV h.points l).isNone = true
  · rw [if_pos hp] at hr
    exact absurd hr (by simp)
  · rw [if_neg hp] at hr
    by_cases hdel : l ∈ h.deleted
    · rw [if_pos hdel] at hr
      exact absurd hr (by simp)
    · rw [if_neg hdel] at hr
      injection hr with hr
      subst hr
      exact ⟨rfl, rfl, rfl, rfl⟩

theorem resizeIndex_shape (h : Hnsw) (n : Nat) (h2 : Hnsw)
    (hr : h.resizeIndex n = .ok h2) :
    h2.deleted = h.deleted ∧ h2.points = h.points ∧
    h2.capacity = n ∧ h2.dim = h.dim := by
  unfold Hnsw.resizeIndex at hr
  by_cases hn : n < h.points.length
  · rw [if_pos hn] at hr
    exact absurd hr (by simp)
  · rw [if_neg hn] at hr
    injection hr with hr
    subst hr
    exact ⟨rfl, rfl, rfl, rfl⟩

/-! ### One addVectors call preserves the invariant and only grows -/

theorem deletedOf_congr (s t : DbIndexState) (h : t.index = s.index) :
    deletedOf t = deletedOf s := by
  unfold deletedOf
  rw [h]

theorem assignLoop_evolves (data : List IndexData) (s : DbIndexState) (u : Bool) :
    EvolvesVia (data.map IndexData.id) s (assignLoop s data u).2 := by
  obtain ⟨i1, i2, i3, i4, i5, i6, i7, i8, i9⟩ := assignLoop_fields data s u
  refine ⟨i5, ?_, i7, i9⟩
  intro l hl
  rw [deletedOf_congr s (assignLoop s data u).2 i1]
  exact hl

theorem save_evolves (names : List String) (s : DbIndexState) :
    EvolvesVia names s (DbIndex.save s) := by
  obtain ⟨h1, h2, h3, h4, h5, h6⟩ := save_fields s
  exact evolvesVia_of_frame names s _ h1 h2 h3 (deletedOf_congr s _ h4)

theorem addPointsLoop_evolves (names : List String) (data : List IndexData)
    (s : DbIndexState) : EvolvesVia names s (addPointsLoop s data).2 := by
  obtain ⟨i1, i2, i3, i4, i5, i6, i7, i8, i9⟩ := addPointsLoop_fields data s
  exact evolvesVia_of_frame names s _ i1 i2 i3 i7

theorem addPointsLoop_inv (data : List IndexData) (s : DbIndexState)
    (hinv : MapsInv s) : MapsInv (addPointsLoop s data).2 := by
  obtain ⟨i1, i2, i3, i4, i5, i6, i7, i8, i9⟩ := addPointsLoop_fields data s
  exact mapsInv_of_eq s _ i1 i2 i3 i7 i8 hinv

theorem addGo_step (data : List IndexData) (s : DbIndexState) (u : Bool)
    (hinv : MapsInv s) :
    MapsInv (DbIndex.addGo s data u).2 ∧
    EvolvesVia (data.map IndexData.id) s (DbIndex.addGo s data u).2 := by
  cases data with
  | nil => exact ⟨hinv, evolvesVia_refl _ s⟩
  | cons d0 drest =>
    cases hi : s.index with
    | none =>
      have hrun : DbIndex.addGo s (d0 :: drest) u = (some .jsTypeError, s) := by
        simp [DbIndex.addGo, hi]
      rw [hrun]
      exact ⟨hinv, evolvesVia_refl _ s⟩
    | some h =>
      by_cases hd : d0.embedding.length ≠ h.dim
      · have hrun : DbIndex.addGo s (d0 :: drest) u = (some .dimensionMismatch, s) := by
          simp [DbIndex.addGo, hi, hd]
        rw [hrun]
        exact ⟨hinv, evolvesVia_refl _ s⟩
      · cases ha : assignLoop s (d0 :: drest) u with
        | mk e1 s1 =>
          have hinv1 : MapsInv s1 := by
            have := assignLoop_inv (d0 :: drest) s u hinv
            rw [ha] at this
            exact this
          have hevo1 : EvolvesVia ((d0 :: drest).map IndexData.id) s s1 := by
            have := assignLoop_evolves (d0 :: drest) s u
            rw [ha] at this
            exact this
          cases e1 with
          | some e =>
            have hrun : DbIndex.addGo s (d0 :: drest) u = (some e, s1) := by
              simp [DbIndex.addGo, hi, hd, ha]
            rw [hrun]
            exact ⟨hinv1, hevo1⟩
          | none =>
            cases h1i : s1.index with
            | none =>
              have hrun : DbIndex.addGo s (d0 :: drest) u = (some .jsTypeError, s1) := by
                simp [DbIndex.addGo, hi, hd, ha, h1i]
              rw [hrun]
              exact ⟨hinv1, hevo1⟩
            | some h1 =>
              cases hm1 : s1.indexMetadata with
              | none =>
                have hrun : DbIndex.addGo s (d0 :: drest) u = (some .jsTypeError, s1) := by
                  simp [DbIndex.addGo, hi, hd, ha, h1i, hm1]
                rw [hrun]
                exact ⟨hinv1, hevo1⟩
              | some m1 =>
                by_cases htrig : m1.elements > h1.points.length
                · cases hres : h1.resizeIndex
                    (resizeTarget m1.elements s1.config.indexResizeFactor) with
                  | error e =>
                    have hrun : DbIndex.addGo s (d0 :: drest) u = (some e, s1) := by
                      simp [DbIndex.addGo, hi, hd, ha, h1i, hm1, htrig, hres]
                    rw [hrun]
                    exact ⟨hinv1, hevo1⟩
                  | ok h2 =>
                    obtain ⟨rd, rp, rc, rdim⟩ := resizeIndex_shape h1 _ h2 hres
                    have hdel2 : deletedOf { s1 with index := some h2 } = deletedOf s1 := by
                      simp [deletedOf, h1i, rd]
                    have hinv2 : MapsInv { s1 with index := some h2 } :=
                      mapsInv_of_eq s1 _ rfl rfl rfl hdel2
                        (fun hx => Option.noConfusion hx) hinv1
                    have hevo2 : EvolvesVia ((d0 :: drest).map IndexData.id) s1
                        { s1 with index := some h2 } :=
                      evolvesVia_of_frame _ s1 _ rfl rfl rfl hdel2
                    cases hap : addPointsLoop { s1 with index := some h2 } (d0 :: drest) with
                    | mk e3 s3 =>
                      have hinv3 : MapsInv s3 := by
                        have := addPointsLoop_inv (d0 :: drest) { s1 with index := some h2 } hinv2
                        rw [hap] at this
                        exact this
                      have hevo3 : EvolvesVia ((d0 :: drest).map IndexData.id)
                          { s1 with index := some h2 } s3 := by
                        have := addPointsLoop_evolves ((d0 :: drest).map IndexData.id)
                          (d0 :: drest) { s1 with index := some h2 }
                        rw [hap] at this
                        exact this
                      have hevo13 : EvolvesVia ((d0 :: drest).map IndexData.id) s s3 :=
                        evolvesVia_trans _ s s1 s3 hevo1
                          (evolvesVia_trans _ s1 _ s3 hevo2 hevo3)
                      rw [hm1] at hap
                      cases e3 with
                      | some e =>
                        have hrun : DbIndex.addGo s (d0 :: drest) u = (some e, s3) := by
                          simp [DbIndex.addGo, hi, hd, ha, h1i, hm1, htrig, hres, hap]
                        rw [hrun]
                        exact ⟨hinv3, hevo13⟩
                      | none =>
                        have hrun : DbIndex.addGo s (d0 :: drest) u =
                            (none, DbIndex.save s3) := by
                          simp [DbIndex.addGo, hi, hd, ha, h1i, hm1, htrig, hres, hap]
                        rw [hrun]
                        exact ⟨save_inv s3 hinv3,
                          evolvesVia_trans _ s s3 _ hevo13 (save_evolves _ s3)⟩
                · cases hap : addPointsLoop s1 (d0 :: drest) with
                  | mk e3 s3 =>
                    have hinv3 : MapsInv s3 := by
                      have := addPointsLoop_inv (d0 :: drest) s1 hinv1
                      rw [hap] at this
                      exact this
                    have hevo3 : EvolvesVia ((d0 :: drest).map IndexData.id) s1 s3 := by
                      have := addPointsLoop_evolves ((d0 :: drest).map IndexData.id)
                        (d0 :: drest) s1
                      rw [hap] at this
                      exact this
                    have hevo13 : EvolvesVia ((d0 :: drest).map IndexData.id) s s3 :=
                      evolvesVia_trans _ s s1 s3 hevo1 hevo3
                    cases e3 with
                    | some e =>
                      have hrun : DbIndex.addGo s (d0 :: drest) u = (some e, s3) := by
                        simp [DbIndex.addGo, hi, hd, ha, h1i, hm1, htrig, hap]
                      rw [hrun]
                      exact ⟨hinv3, hevo13⟩
                    | none =>
                      have hrun : DbIndex.addGo s (d0 :: drest) u =
                          (none, DbIndex.save s3) := by
                        simp [DbIndex.addGo, hi, hd, ha, h1i, hm1, htrig, hap]
                      rw [hrun]
                      exact ⟨save_inv s3 hinv3,
                        evolvesVia_trans _ s s3 _ hevo13 (save_evolves _ s3)⟩

theorem initIndex_evolves (names : List String) (s : DbIndexState)
    (hinv : MapsInv s) (hi : s.index = none) :
    EvolvesVia names s (DbIndex.initIndex s) := by
  obtain ⟨h1, h2, h3, h4, h5⟩ := initIndex_fields s
  obtain ⟨e1, e2, e3⟩ := hinv.index_none hi
  refine ⟨?_, ?_, ?_, ?_⟩
  · simp [elementsOf, e3, h3]
  · intro l hl
    simp [deletedOf, hi] at hl
  · intro id l hl
    rw [h1] at hl
    exact Or.inl hl
  · intro l id hl
    rw [h2] at hl
    exact Or.inl hl

theorem add_step (data : List IndexData) (s : DbIndexState) (u : Bool)
    (hinv : MapsInv s) :
    MapsInv (DbIndex.add s data u).2 ∧
    EvolvesVia (data.map IndexData.id) s (DbIndex.add s data u).2 := by
  cases data with
  | nil => exact ⟨hinv, evolvesVia_refl _ s⟩
  | cons d0 drest =>
    by_cases hni : s.index.isNone = true
    · have hseq : s.index = none := by
        cases hx : s.index with
        | none => rfl
        | some h => rw [hx] at hni; simp at hni
      have hrun : DbIndex.add s (d0 :: drest) u =
          DbIndex.addGo (DbIndex.initIndex s) (d0 :: drest) u := by
        simp [DbIndex.add, hni]
      rw [hrun]
      obtain ⟨hg1, hg2⟩ := addGo_step (d0 :: drest) (DbIndex.initIndex s) u
        (initIndex_inv s hinv hseq)
      exact ⟨hg1, evolvesVia_trans _ s _ _
        (initIndex_evolves _ s hinv hseq) hg2⟩
    · have hrun : DbIndex.add s (d0 :: drest) u =
          DbIndex.addGo s (d0 :: drest) u := by
        simp [DbIndex.add, hni]
      rw [hrun]
      exact addGo_step (d0 :: drest) s u hinv

/-! ### One deleteVectors call: invariant, evolution, and removal -/

theorem deleteLoop_spec2 (ids : List String) (s : DbIndexState)
    (hinv : MapsInv s) :
    MapsInv (deleteLoop s ids).2 ∧
    EvolvesVia [] s (deleteLoop s ids).2 ∧
    ((deleteLoop s ids).1 = none → ∀ id ∈ ids,
      getKV (deleteLoop s ids).2.idToLabel id = none ∧
      ∀ l, getKV (deleteLoop s ids).2.labelToId l ≠ some id) := by
  induction ids generalizing s with
  | nil =>
    refine ⟨hinv, evolvesVia_refl [] s, ?_⟩
    intro _ id hid
    simp at hid
  | cons id rest ih =>
    cases hi : s.index with
    | none =>
      have hrun : deleteLoop s (id :: rest) = (some .jsTypeError, s) := by
        simp [deleteLoop, hi]
      rw [hrun]
      exact ⟨hinv, evolvesVia_refl [] s, fun hc => by simp at hc⟩
    | some h =>
      cases hl : getKV s.idToLabel id with
      | none =>
        have hrun : deleteLoop s (id :: rest) = (some .jsTypeError, s) := by
          simp [deleteLoop, hi, hl]
        rw [hrun]
        exact ⟨hinv, evolvesVia_refl [] s, fun hc => by simp at hc⟩
      | some lbl =>
        cases hm : h.markDelete lbl with
        | error e =>
          have hrun : deleteLoop s (id :: rest) = (some e, s) := by
            simp [deleteLoop, hi, hl, hm]
          rw [hrun]
          exact ⟨hinv, evolvesVia_refl [] s, fun hc => by simp at hc⟩
        | ok h2 =>
          obtain ⟨md, mp, mc, mdim⟩ := markDelete_shape h lbl h2 hm
          set s2 : DbIndexState :=
            { s with index := some h2,
                     labelToId := delKV s.labelToId lbl,
                     idToLabel := delKV s.idToLabel id } with hs2
          have hrun : deleteLoop s (id :: rest) = deleteLoop s2 rest := by
            simp [deleteLoop, hi, hl, hm, hs2]
          have hbl := hinv.label_bounds id lbl hl
          have hfwd := hinv.toLabel_toId id lbl hl
          have he2 : elementsOf s2 = elementsOf s := by
            simp [elementsOf, hs2]
          have hdel2 : deletedOf s2 = lbl :: deletedOf s := by
            simp [deletedOf, hs2, hi, md]
          have hinv2 : MapsInv s2 := by
            refine ⟨?_, ?_, ?_, ?_, ?_, ?_, ?_⟩
            · intro id2 l2 hx
              have hx2 : getKV (delKV s.idToLabel id) id2 = some l2 := hx
              rw [getKV_delKV] at hx2
              by_cases hc : id2 = id
              · rw [if_pos hc] at hx2
                exact Option.noConfusion hx2
              · rw [if_neg hc] at hx2
                show getKV (delKV s.labelToId lbl) l2 = some id2
                rw [getKV_delKV]
                have hball := hinv.toLabel_toId id2 l2 hx2
                by_cases hll : l2 = lbl
                · rw [hll] at hball
                  rw [hfwd] at hball
                  injection hball with hball
                  exact absurd hball.symm hc
                · rw [if_neg hll]
                  exact hball
            · intro l2 id2 hx
              have hx2 : getKV (delKV s.labelToId lbl) l2 = some id2 := hx
              rw [getKV_delKV] at hx2
              by_cases hll : l2 = lbl
              · rw [if_pos hll] at hx2
                exact Option.noConfusion hx2
              · rw [if_neg hll] at hx2
                have hback := hinv.toId_toLabel l2 id2 hx2
                show getKV (delKV s.idToLabel id) id2 = some l2
                rw [getKV_delKV]
                by_cases hc : id2 = id
                · rw [hc] at hback
                  rw [hback] at hl
                  injection hl with hl2
                  exact absurd hl2 hll
                · rw [if_neg hc]
                  exact hback
            · intro id2 l2 hx
              have hx2 : getKV (delKV s.idToLabel id) id2 = some l2 := hx
              rw [getKV_delKV] at hx2
              by_cases hc : id2 = id
              · rw [if_pos hc] at hx2
                exact Option.noConfusion hx2
              · rw [if_neg hc] at hx2
                rw [he2]
                exact hinv.label_bounds id2 l2 hx2
            · intro l2 hx
              rw [hdel2] at hx
              rw [he2]
              rcases List.mem_cons.mp hx with hc | hc
              · rw [hc]
                exact hbl.2
              · exact hinv.deleted_le l2 hc
            · intro l2 hx
              rw [hdel2] at hx
              show getKV (delKV s.labelToId lbl) l2 = none
              rw [getKV_delKV]
              rcases List.mem_cons.mp hx with hc | hc
              · rw [if_pos hc]
              · by_cases hll : l2 = lbl
                · rw [if_pos hll]
                · rw [if_neg hll]
                  exact hinv.deleted_dead l2 hc
            · intro hx
              have hx2 : s.indexMetadata = none := hx
              obtain ⟨ha, hb⟩ := hinv.meta_none hx2
              constructor
              · show delKV s.idToLabel id = []
                rw [ha]
                rfl
              · show delKV s.labelToId lbl = []
                rw [hb]
                rfl
            · intro hx
              exact absurd hx (by simp [hs2])
          have hevo2 : EvolvesVia [] s s2 := by
            refine ⟨le_of_eq he2.symm, ?_, ?_, ?_⟩
            · intro l2 hx
              rw [hdel2]
              exact List.mem_cons_of_mem lbl hx
            · intro id2 l2 hx
              have hx2 : getKV (delKV s.idToLabel id) id2 = some l2 := hx
              rw [getKV_delKV] at hx2
              by_cases hc : id2 = id
              · rw [if_pos hc] at hx2
                exact Option.noConfusion hx2
              · rw [if_neg hc] at hx2
                exact Or.inl hx2
            · intro l2 id2 hx
              have hx2 : getKV (delKV s.labelToId lbl) l2 = some id2 := hx
              rw [getKV_delKV] at hx2
              by_cases hll : l2 = lbl
              · rw [if_pos hll] at hx2
                exact Option.noConfusion hx2
              · rw [if_neg hll] at hx2
                exact Or.inl hx2
          obtain ⟨j1, j2, j3⟩ := ih s2 hinv2
          rw [hrun]
          refine ⟨j1, evolvesVia_trans [] s s2 _ hevo2 j2, ?_⟩
          intro hok id2 hmem
          rcases List.mem_cons.mp hmem with hc | hc
          · subst hc
            obtain ⟨_, _, e3, e4⟩ := j2
            constructor
            · cases hy : getKV (deleteLoop s2 rest).2.idToLabel id2 with
              | none => rfl
              | some l2 =>
                rcases e3 id2 l2 hy with hz | ⟨_, hz⟩
                · have hz2 : getKV (delKV s.idToLabel id2) id2 = some l2 := hz
                  rw [getKV_delKV, if_pos rfl] at hz2
                  exact Option.noConfusion hz2
                · simp at hz
            · intro l2 hy
              rcases e4 l2 id2 hy with hz | ⟨_, hz⟩
              · have hz2 : getKV (delKV s.labelToId lbl) l2 = some id2 := hz
                rw [getKV_delKV] at hz2
                by_cases hll : l2 = lbl
                · rw [if_pos hll] at hz2
                  exact Option.noConfusion hz2
                · rw [if_neg hll] at hz2
                  have hback := hinv.toId_toLabel l2 id2 hz2
                  rw [hback] at hl
                  injection hl with hl2
                  exact absurd hl2 hll
              · simp at hz
          · exact j3 hok id2 hc

theorem delete_step (ids : List String) (s : DbIndexState) (hinv : MapsInv s) :
    MapsInv (DbIndex.delete s ids).2 ∧
    EvolvesVia [] s (DbIndex.delete s ids).2 ∧
    (∀ s2, DbIndex.delete s ids = (none, s2) → ∀ id ∈ ids, IdAbsent s2 id) := by
  obtain ⟨j1, j2, j3⟩ := deleteLoop_spec2 ids s hinv
  unfold DbIndex.delete
  cases hr : deleteLoop s ids with
  | mk e s1 =>
    rw [hr] at j1 j2 j3
    cases e with
    | some e0 =>
      refine ⟨j1, j2, ?_⟩
      intro s2 hcontra
      simp at hcontra
    | none =>
      obtain ⟨v1, v2, v3, v4, v5, v6⟩ := save_fields s1
      refine ⟨save_inv s1 j1,
        evolvesVia_trans [] s s1 _ j2 (save_evolves [] s1), ?_⟩
      intro s2 heq id hid
      have hs2 : s2 = DbIndex.save s1 := by
        injection heq with heq1 heq2
        exact heq2.symm
      obtain ⟨w1, w2⟩ := j3 rfl id hid
      subst hs2
      constructor
      · rw [v1]
        exact w1
      · intro l
        rw [v2]
        exact w2 l

/-! ### Sequences of operations -/

theorem applyOp_step (op : IndexOp) (s : DbIndexState) (hinv : MapsInv s) :
    MapsInv (applyOp s op).2 ∧ EvolvesVia (opNames op) s (applyOp s op).2 := by
  cases op with
  | addOp data u => exact add_step data s u hinv
  | deleteOp ids =>
    obtain ⟨j1, j2, _⟩ := delete_step ids s hinv
    exact ⟨j1, j2⟩

theorem runOps_cons (s : DbIndexState) (op : IndexOp) (ops : List IndexOp) :
    runOps s (op :: ops) = runOps (applyOp s op).2 ops := rfl

theorem runOps_inv (ops : List IndexOp) (s : DbIndexState) (hinv : MapsInv s) :
    MapsInv (runOps s ops) := by
  induction ops generalizing s with
  | nil => exact hinv
  | cons op ops ih =>
    rw [runOps_cons]
    exact ih (applyOp s op).2 (applyOp_step op s hinv).1

theorem runOps_absent (ops : List IndexOp) (s : DbIndexState) (id : String)
    (hinv : MapsInv s) (habs : IdAbsent s id)
    (hops : ∀ op ∈ ops, ¬ opAddsId op id) : IdAbsent (runOps s ops) id := by
  induction ops generalizing s with
  | nil => exact habs
  | cons op ops ih =>
    rw [runOps_cons]
    obtain ⟨k1, k2⟩ := applyOp_step op s hinv
    have habs2 : IdAbsent (applyOp s op).2 id := by
      apply idAbsent_of_evolves (opNames op) s (applyOp s op).2 id habs _ k2
      intro hmem
      apply hops op (List.mem_cons_self op ops)
      cases op with
      | addOp data u => exact hmem
      | deleteOp ids => simp [opNames] at hmem
    exact ih (applyOp s op).2 k1 habs2
      (fun op2 hm => hops op2 (List.mem_cons_of_mem op hm))

/-! ### C1: the label lifecycle invariant -/

/-- C1: over every sequence of `addVectors`/`deleteVectors` calls on one
index (started from a fresh construction), the id-to-label map restricted to
live ids is a bijection with the label-to-id map; every live label lies in
`1..counter`; tombstoned labels also lie under the counter and are never
live.  Deleting an id (successfully) removes both of its map entries.  And
across one further operation: the counter never decreases, every tombstone
stays tombstoned forever, and a label that is newly assigned (to a fresh or
re-inserted id) is strictly larger than the old counter — so a deleted label
is never reused. -/
theorem c1_label_lifecycle (cfg : IndexConfig) (ops : List IndexOp)
    (op : IndexOp) :
    (∀ id l, getKV (runOps (DbIndex.new cfg []) ops).idToLabel id = some l ↔
      getKV (runOps (DbIndex.new cfg []) ops).labelToId l = some id) ∧
    (∀ id l, getKV (runOps (DbIndex.new cfg []) ops).idToLabel id = some l →
      1 ≤ l ∧ l ≤ elementsOf (runOps (DbIndex.new cfg []) ops)) ∧
    (∀ l, l ∈ deletedOf (runOps (DbIndex.new cfg []) ops) →
      l ≤ elementsOf (runOps (DbIndex.new cfg []) ops) ∧
      getKV (runOps (DbIndex.new cfg []) ops).labelToId l = none) ∧
    elementsOf (runOps (DbIndex.new cfg []) ops) ≤
      elementsOf (applyOp (runOps (DbIndex.new cfg []) ops) op).2 ∧
    (∀ l, l ∈ deletedOf (runOps (DbIndex.new cfg []) ops) →
      l ∈ deletedOf (applyOp (runOps (DbIndex.new cfg []) ops) op).2) ∧
    (∀ id l,
      getKV (applyOp (runOps (DbIndex.new cfg []) ops) op).2.idToLabel id = some l →
      getKV (runOps (DbIndex.new cfg []) ops).idToLabel id = some l ∨
        (elementsOf (runOps (DbIndex.new cfg []) ops) < l ∧
          l ∉ deletedOf (runOps (DbIndex.new cfg []) ops))) ∧
    (∀ id s3, DbIndex.delete (runOps (DbIndex.new cfg []) ops) [id] = (none, s3) →
      getKV s3.idToLabel id = none ∧ ∀ l, getKV s3.labelToId l ≠ some id) := by
  have hinv : MapsInv (runOps (DbIndex.new cfg []) ops) :=
    runOps_inv ops (DbIndex.new cfg []) (new_inv cfg)
  obtain ⟨k1, k2⟩ := applyOp_step op (runOps (DbIndex.new cfg []) ops) hinv
  obtain ⟨e1, e2, e3, e4⟩ := k2
  refine ⟨?_, hinv.label_bounds, ?_, e1, e2, ?_, ?_⟩
  · intro id l
    exact ⟨hinv.toLabel_toId id l, hinv.toId_toLabel l id⟩
  · intro l hl
    exact ⟨hinv.deleted_le l hl, hinv.deleted_dead l hl⟩
  · intro id l hl
    rcases e3 id l hl with hc | ⟨hc1, _⟩
    · exact Or.inl hc
    · refine Or.inr ⟨hc1, ?_⟩
      intro hmem
      have := hinv.deleted_le l hmem
      omega
  · intro id s3 hdel
    obtain ⟨_, _, d3⟩ := delete_step [id] (runOps (DbIndex.new cfg []) ops) hinv
    exact d3 s3 hdel id (by simp)

/-! ### Where search results come from -/

theorem mem_insertHit (x y : IndexSearchResult) (l : List IndexSearchResult) :
    x ∈ insertHit y l ↔ x = y ∨ x ∈ l := by
  induction l with
  | nil => simp [insertHit]
  | cons z zs ih =>
    unfold insertHit
    by_cases hc : y.distance ≤ z.distance
    · simp [hc]
    · simp [hc, ih]
      tauto

theorem mem_sortHits (x : IndexSearchResult) (l : List IndexSearchResult) :
    x ∈ sortHits l ↔ x ∈ l := by
  induction l with
  | nil => simp [sortHits]
  | cons y ys ih =>
    show x ∈ insertHit y (sortHits ys) ↔ _
    rw [mem_insertHit, ih]
    simp

theorem length_insertHit (y : IndexSearchResult) (l : List IndexSearchResult) :
    (insertHit y l).length = l.length + 1 := by
  induction l with
  | nil => simp [insertHit]
  | cons z zs ih =>
    unfold insertHit
    by_cases hc : y.distance ≤ z.distance
    · simp [hc]
    · simp [hc, ih]

theorem length_sortHits (l : List IndexSearchResult) :
    (sortHits l).length = l.length := by
  induction l with
  | nil => rfl
  | cons y ys ih =>
    show (insertHit y (sortHits ys)).length = _
    rw [length_insertHit, ih]
    rfl

theorem mem_insertPair (x y : Nat × ℚ) (l : List (Nat × ℚ)) :
    x ∈ insertPair y l ↔ x = y ∨ x ∈ l := by
  induction l with
  | nil => simp [insertPair]
  | cons z zs ih =>
    unfold insertPair
    by_cases hc : y.2 ≤ z.2
    · simp [hc]
    · simp [hc, ih]
      tauto

theorem mem_sortPairsByDist (x : Nat × ℚ) (l : List (Nat × ℚ)) :
    x ∈ sortPairsByDist l ↔ x ∈ l := by
  induction l with
  | nil => simp [sortPairsByDist]
  | cons y ys ih =>
    show x ∈ insertPair y (ys.foldr insertPair []) ↔ _
    rw [mem_insertPair]
    rw [show ys.foldr insertPair [] = sortPairsByDist ys from rfl, ih]
    simp

theorem search_hit_ids (s : DbIndexState) (dist : List ℚ → List ℚ → ℚ)
    (query : List ℚ) (k : Nat) (ids : List String)
    (hits : List IndexSearchResult)
    (hok : DbIndex.search s dist query k ids = .ok hits) :
    ∀ hit ∈ hits, ∃ l, hit.id = getKV s.labelToId l := by
  unfold DbIndex.search at hok
  cases hi : s.index with
  | none =>
    simp only [hi] at hok
    exact absurd hok (by simp)
  | some h =>
    simp only [hi] at hok
    by_cases hq : query.length ≠ h.dim
    · rw [if_pos hq] at hok
      exact absurd hok (by simp)
    · rw [if_neg hq] at hok
      cases hm : s.indexMetadata with
      | none =>
        simp only [hm] at hok
        exact absurd hok (by simp)
      | some m =>
        simp only [hm] at hok
        by_cases hk : k > m.elements
        · rw [if_pos hk] at hok
          exact absurd hok (by simp)
        · rw [if_neg hk] at hok
          simp only [Except.ok.injEq] at hok
          subst hok
          intro hit hmem
          simp only [searchBody] at hmem
          rw [mem_sortHits] at hmem
          obtain ⟨p, hp, hfp⟩ := List.mem_map.mp hmem
          exact ⟨p.1, by rw [← hfp]⟩

/-! ### C7: a deleted id never reappears in search results -/

/-- C7: delete the id "id" from any reachable index state; then after any
further operations whose add batches do not mention "id", any successful
search — any metric, any query, any k, any id filter — returns no hit
carrying that id, even though the delete left the cumulative counter
untouched (the cumulative counter is checked separately).
-/
theorem c7_deleted_id_never_returned (cfg : IndexConfig) (ops1 : List IndexOp)
    (id : String) (s2 : DbIndexState) (ops2 : List IndexOp)
    (dist : List ℚ → List ℚ → ℚ) (query : List ℚ) (k : Nat)
    (flt : List String) (hits : List IndexSearchResult)
    (hdel : DbIndex.delete (runOps (DbIndex.new cfg []) ops1) [id] = (none, s2))
    (hops : ∀ op ∈ ops2, ¬ opAddsId op id)
    (hsearch : DbIndex.search (runOps s2 ops2) dist query k flt = .ok hits) :
    some id ∉ hits.map IndexSearchResult.id := by
  have hinv1 : MapsInv (runOps (DbIndex.new cfg []) ops1) :=
    runOps_inv ops1 (DbIndex.new cfg []) (new_inv cfg)
  obtain ⟨d1, _, d3⟩ := delete_step [id] (runOps (DbIndex.new cfg []) ops1) hinv1
  have habs : IdAbsent s2 id := d3 s2 hdel id (by simp)
  have hinv2 : MapsInv s2 := by
    have heq : (DbIndex.delete (runOps (DbIndex.new cfg []) ops1) [id]).2 = s2 := by
      rw [hdel]
    rw [heq] at d1
    exact d1
  have habs2 : IdAbsent (runOps s2 ops2) id :=
    runOps_absent ops2 s2 id hinv2 habs hops
  intro hmem
  obtain ⟨hit, hhit, hid⟩ := List.mem_map.mp hmem
  obtain ⟨l, hl⟩ := search_hit_ids (runOps s2 ops2) dist query k flt hits hsearch hit hhit
  apply habs2.2 l
  rw [← hl, hid]

/-- Witness for `c7_deleted_id_never_returned`: insert "a" and "b", delete
"a", run the query [0] with k = 1 — the single hit is "b", never "a". -/
theorem c7_witness :
    some "a" ∉
      ([{ id := some "b", distance := 4, embedding := some [2] }] :
        List IndexSearchResult).map IndexSearchResult.id :=
  c7_deleted_id_never_returned cfgA [.addOp [⟨"a", [1]⟩, ⟨"b", [2]⟩] false] "a"
    (DbIndex.delete (runOps (DbIndex.new cfgA [])
      [.addOp [⟨"a", [1]⟩, ⟨"b", [2]⟩] false]) ["a"]).2 [] sqDist [0] 1 []
    [{ id := some "b", distance := 4, embedding := some [2] }]
    (by decide) (by simp) (by decide)

/-! ### C8: the id filter -/

theorem mem_jsSetAdd (x y : Option Nat) (s : List (Option Nat)) :
    x ∈ jsSetAdd s y ↔ x ∈ s ∨ x = y := by
  unfold jsSetAdd
  by_cases hy : y ∈ s
  · rw [if_pos hy]
    constructor
    · exact Or.inl
    · rintro (hx | hx)
      · exact hx
      · rw [hx]
        exact hy
  · rw [if_neg hy]
    simp

theorem jsSetAdd_ne_nil (y : Option Nat) (s : List (Option Nat)) :
    jsSetAdd s y ≠ [] := by
  unfold jsSetAdd
  by_cases hy : y ∈ s
  · rw [if_pos hy]
    exact List.ne_nil_of_mem hy
  · rw [if_neg hy]
    simp

theorem labelSetOf_fold_mem (m : List (String × Nat)) (ids : List String)
    (acc : List (Option Nat)) (x : Option Nat)
    (hx : x ∈ ids.foldl (fun a i => jsSetAdd a (getKV m i)) acc) :
    x ∈ acc ∨ ∃ i ∈ ids, getKV m i = x := by
  induction ids generalizing acc with
  | nil => exact Or.inl hx
  | cons i rest ih =>
    rcases ih (jsSetAdd acc (getKV m i)) hx with hc | ⟨j, hj1, hj2⟩
    · rw [mem_jsSetAdd] at hc
      rcases hc with hc | hc
      · exact Or.inl hc
      · exact Or.inr ⟨i, by simp, hc.symm⟩
    · exact Or.inr ⟨j, List.mem_cons_of_mem i hj1, hj2⟩

theorem mem_labelSetOf (m : List (String × Nat)) (ids : List String)
    (x : Option Nat) (hx : x ∈ labelSetOf m ids) :
    ∃ i ∈ ids, getKV m i = x := by
  rcases labelSetOf_fold_mem m ids [] x hx with hc | hc
  · simp at hc
  · exact hc

theorem labelSetOf_fold_ne_nil (m : List (String × Nat)) (ids : List String)
    (acc : List (Option Nat)) (hacc : acc ≠ []) :
    ids.foldl (fun a i => jsSetAdd a (getKV m i)) acc ≠ [] := by
  induction ids generalizing acc with
  | nil => exact hacc
  | cons i rest ih => exact ih (jsSetAdd acc (getKV m i)) (jsSetAdd_ne_nil _ acc)

theorem labelSetOf_ne_nil (m : List (String × Nat)) (ids : List String)
    (hne : ids ≠ []) : labelSetOf m ids ≠ [] := by
  cases ids with
  | nil => exact absurd rfl hne
  | cons i rest =>
    show List.foldl _ (jsSetAdd [] (getKV m i)) rest ≠ []
    exact labelSetOf_fold_ne_nil m rest _ (jsSetAdd_ne_nil _ [])

theorem searchKnn_length_le (h : Hnsw) (dist : List ℚ → List ℚ → ℚ)
    (query : List ℚ) (k : Nat) (filt : Option (Nat → Bool)) :
    (h.searchKnn dist query k filt).length ≤ k := by
  unfold Hnsw.searchKnn
  simp [List.length_take]

theorem searchKnn_mem (h : Hnsw) (dist : List ℚ → List ℚ → ℚ)
    (query : List ℚ) (k : Nat) (filt : Option (Nat → Bool)) (p : Nat × ℚ)
    (hp : p ∈ h.searchKnn dist query k filt) :
    ∃ v, (p.1, v) ∈ h.points ∧ p.1 ∉ h.deleted ∧
      (∀ f, filt = some f → f p.1 = true) := by
  unfold Hnsw.searchKnn at hp
  have hp2 := List.mem_of_mem_take hp
  rw [mem_sortPairsByDist] at hp2
  obtain ⟨c, hc, hcp⟩ := List.mem_map.mp hp2
  rw [List.mem_filter] at hc
  obtain ⟨hcmem, hcpred⟩ := hc
  rw [Bool.and_eq_true] at hcpred
  obtain ⟨hcdel, hcf⟩ := hcpred
  refine ⟨c.2, ?_, ?_, ?_⟩
  · rw [← hcp]
    simpa using hcmem
  · rw [← hcp]
    intro hcon
    rw [Bool.not_eq_eq_eq_not] at hcdel
    simp at hcdel
    exact hcdel (by simpa using hcon)
  · intro f hf
    rw [hf] at hcf
    rw [← hcp]
    simpa using hcf

theorem searchKnn_clamped_length (h : Hnsw) (dist : List ℚ → List ℚ → ℚ)
    (query : List ℚ) (k n : Nat) (b : Bool) (filt : Option (Nat → Bool))
    (hb : b = true → n ≤ k) :
    (h.searchKnn dist query (if b = true then n else k) filt).length ≤ k := by
  by_cases hbb : b = true
  · rw [if_pos hbb]
    exact le_trans (searchKnn_length_le h dist query n filt) (hb hbb)
  · rw [if_neg hbb]
    exact searchKnn_length_le h dist query k filt

theorem searchBody_length_le (s : DbIndexState) (h : Hnsw)
    (dist : List ℚ → List ℚ → ℚ) (query : List ℚ) (k : Nat)
    (ids : List String) : (searchBody s h dist query k ids).length ≤ k := by
  unfold searchBody
  rw [length_sortHits, List.length_map]
  apply searchKnn_clamped_length
  intro hb
  rw [Bool.and_eq_true] at hb
  exact le_of_lt (of_decide_eq_true hb.2)

theorem searchBody_mem_filter (s : DbIndexState) (h : Hnsw)
    (dist : List ℚ → List ℚ → ℚ) (query : List ℚ) (k : Nat)
    (ids : List String) (hinv : MapsInv s) (hne : ids ≠ [])
    (hit : IndexSearchResult) (hmem : hit ∈ searchBody s h dist query k ids) :
    ∃ i ∈ ids, hit.id = some i := by
  have hids : ids.isEmpty = false := by
    cases ids with
    | nil => exact absurd rfl hne
    | cons a b => rfl
  have hlnil : labelSetOf s.idToLabel ids ≠ [] := labelSetOf_ne_nil _ ids hne
  have hfilt : (!(labelSetOf s.idToLabel ids).isEmpty) = true := by
    cases hx : labelSetOf s.idToLabel ids with
    | nil => exact absurd hx hlnil
    | cons a b => rfl
  simp only [searchBody, hids, Bool.false_eq_true, if_false, hfilt, if_true] at hmem
  rw [mem_sortHits] at hmem
  obtain ⟨p, hp, hfp⟩ := List.mem_map.mp hmem
  obtain ⟨v, hv, hdel, hf⟩ := searchKnn_mem h dist query _ _ p hp
  have hcont := hf _ rfl
  have hmem2 : (some p.1) ∈ labelSetOf s.idToLabel ids := by
    simpa using hcont
  obtain ⟨i, hi1, hi2⟩ := mem_labelSetOf s.idToLabel ids (some p.1) hmem2
  refine ⟨i, hi1, ?_⟩
  rw [← hfp]
  show getKV s.labelToId p.1 = some i
  exact hinv.toLabel_toId i p.1 hi2

/-- C8 amended: once the `k`-versus-cumulative-counter guard has passed
(`k ≤ counter`; with a larger `k` the call errors BEFORE any clamping), a search on a reachable index with a matching
query dimension always succeeds: it returns at most `k` hits, and with a
non-empty id filter every hit carries one of the filtered ids (a dead id in
the filter contributes only the label set's `undefined` entry, which no
stored label matches). -/
theorem c8_filtered_search_clamps (cfg : IndexConfig) (ops : List IndexOp)
    (h : Hnsw) (m : IndexMetadata) (dist : List ℚ → List ℚ → ℚ)
    (query : List ℚ) (k : Nat) (ids : List String)
    (hi : (runOps (DbIndex.new cfg []) ops).index = some h)
    (hm : (runOps (DbIndex.new cfg []) ops).indexMetadata = some m)
    (hq : query.length = h.dim) (hk : k ≤ m.elements) :
    ∃ hits,
      DbIndex.search (runOps (DbIndex.new cfg []) ops) dist query k ids =
        .ok hits ∧
      hits.length ≤ k ∧
      (ids ≠ [] → ∀ hit ∈ hits, ∃ i ∈ ids, hit.id = some i) := by
  have hinv : MapsInv (runOps (DbIndex.new cfg []) ops) :=
    runOps_inv ops (DbIndex.new cfg []) (new_inv cfg)
  have hok : DbIndex.search (runOps (DbIndex.new cfg []) ops) dist query k ids =
      .ok (searchBody (runOps (DbIndex.new cfg []) ops) h dist query k ids) := by
    unfold DbIndex.search
    simp only [hi, hm]
    rw [if_neg (by omega), if_neg (by omega)]
  refine ⟨searchBody (runOps (DbIndex.new cfg []) ops) h dist query k ids,
    hok, searchBody_length_le _ h dist query k ids, ?_⟩
  intro hne hit hmem
  exact searchBody_mem_filter _ h dist query k ids hinv hne hit hmem

/-- Witness for `c8_filtered_search_clamps`: three inserts, filter
["a", "b"], k = 2 within the counter: the call succeeds with at most two
hits, each one of "a"/"b". -/
theorem c8_witness :
    ∃ hits,
      DbIndex.search (runOps (DbIndex.new cfgA [])
          [.addOp [⟨"a", [1]⟩, ⟨"b", [2]⟩, ⟨"c", [3]⟩] false])
        sqDist [0] 2 ["a", "b"] = .ok hits ∧
      hits.length ≤ 2 ∧
      ((["a", "b"] : List String) ≠ [] →
        ∀ hit ∈ hits, ∃ i ∈ (["a", "b"] : List String), hit.id = some i) :=
  c8_filtered_search_clamps cfgA
    [.addOp [⟨"a", [1]⟩, ⟨"b", [2]⟩, ⟨"c", [3]⟩] false]
    { dim := 1, capacity := 1000,
      points := [(3, [3]), (2, [2]), (1, [1])], deleted := [] }
    { elements := 3 } sqDist [0] 2 ["a", "b"] (by decide) (by decide)
    (by decide) (by decide)

/-! ### C5: what the resize branch actually does -/

/-- C5 amended: when an `addVectors` call on an initialized index succeeds,
the capacity afterwards is `max(⌊counter·resizeFactor⌋, 1000)` whenever the
cumulative counter exceeds the number of points that were STORED before the
call (`getCurrentCount()`, not the capacity), and
is unchanged otherwise; and the computed target can drop below the counter
when the resize factor is below one (3000 · 1/2 → 1500), so the code does
not ensure capacity ≥ counter. -/
theorem c5_capacity_after_add (s : DbIndexState) (h0 : Hnsw)
    (data : List IndexData) (u : Bool) (s9 : DbIndexState)
    (hi : s.index = some h0) (hr : DbIndex.add s data u = (none, s9)) :
    (∃ h9, s9.index = some h9 ∧
      h9.capacity = (if h0.points.length < elementsOf s9 then
        resizeTarget (elementsOf s9) s.config.indexResizeFactor
        else h0.capacity)) ∧
    resizeTarget 3000 (1 / 2) = 1500 ∧ 1500 < 3000 := by
  refine ⟨?_, by decide, by decide⟩
  cases data with
  | nil =>
    unfold DbIndex.add at hr
    exact absurd hr (by simp)
  | cons d0 drest =>
    have hwrap : DbIndex.add s (d0 :: drest) u = DbIndex.addGo s (d0 :: drest) u := by
      simp [DbIndex.add, hi]
    rw [hwrap] at hr
    unfold DbIndex.addGo at hr
    simp only [hi] at hr
    by_cases hd : d0.embedding.length ≠ h0.dim
    · rw [if_pos hd] at hr
      exact absurd hr (by simp)
    · rw [if_neg hd] at hr
      obtain ⟨a1, a2, a3, a4, a5, a6, a7, a8, a9⟩ :=
        assignLoop_fields (d0 :: drest) s u
      cases ha : assignLoop s (d0 :: drest) u with
      | mk e1 s1 =>
        rw [ha] at a1 a4
        cases e1 with
        | some e =>
          simp only [ha] at hr
          exact absurd hr (by simp)
        | none =>
          simp only [ha] at hr
          have h1i : s1.index = some h0 := by rw [a1, hi]
          cases hm1 : s1.indexMetadata with
          | none =>
            simp only [h1i, hm1] at hr
            exact absurd hr (by simp)
          | some m1 =>
            simp only [h1i, hm1] at hr
            have hcfg : s1.config = s.config := a4
            by_cases htrig : m1.elements > h0.points.length
            · rw [if_pos htrig] at hr
              cases hres : h0.resizeIndex
                  (resizeTarget m1.elements s1.config.indexResizeFactor) with
              | error e =>
                simp only [hres] at hr
                exact absurd hr (by simp)
              | ok h2 =>
                simp only [hres] at hr
                obtain ⟨rd, rp, rc, rdim⟩ := resizeIndex_shape h0 _ h2 hres
                obtain ⟨p1, p2, p3, p4, p5, p6, p7, p8, p9⟩ :=
                  addPointsLoop_fields (d0 :: drest)
                    { s1 with index := some h2, indexMetadata := some m1 }
                cases hap : addPointsLoop
                    { s1 with index := some h2, indexMetadata := some m1 }
                    (d0 :: drest) with
                | mk e3 s3 =>
                  rw [hap] at p3 p9
                  cases e3 with
                  | some e =>
                    simp only [hap] at hr
                    exact absurd hr (by simp)
                  | none =>
                    simp only [hap] at hr
                    have hs9 : s9 = DbIndex.save s3 := by
                      injection hr with hr1 hr2
                      exact hr2.symm
                    obtain ⟨v1, v2, v3, v4, v5, v6⟩ := save_fields s3
                    obtain ⟨h9, hh9, hc9, hd9⟩ := p9 h2 rfl
                    have hmeta : s9.indexMetadata = some m1 := by
                      rw [hs9, v3, p3]
                    have hel : elementsOf s9 = m1.elements := by
                      simp [elementsOf, hmeta]
                    refine ⟨h9, ?_, ?_⟩
                    · rw [hs9, v4, hh9]
                    · rw [hel, if_pos htrig, hc9, rc, hcfg]
            · rw [if_neg htrig] at hr
              obtain ⟨p1, p2, p3, p4, p5, p6, p7, p8, p9⟩ :=
                addPointsLoop_fields (d0 :: drest) s1
              cases hap : addPointsLoop s1 (d0 :: drest) with
              | mk e3 s3 =>
                rw [hap] at p3 p9
                cases e3 with
                | some e =>
                  simp only [hap] at hr
                  exact absurd hr (by simp)
                | none =>
                  simp only [hap] at hr
                  have hs9 : s9 = DbIndex.save s3 := by
                    injection hr with hr1 hr2
                    exact hr2.symm
                  obtain ⟨v1, v2, v3, v4, v5, v6⟩ := save_fields s3
                  obtain ⟨h9, hh9, hc9, hd9⟩ := p9 h0 h1i
                  have hmeta : s9.indexMetadata = some m1 := by
                    rw [hs9, v3, p3, hm1]
                  have hel : elementsOf s9 = m1.elements := by
                    simp [elementsOf, hmeta]
                  refine ⟨h9, ?_, ?_⟩
                  · rw [hs9, v4, hh9]
                  · rw [hel, if_neg htrig, hc9]

/-- Witness for `c5_capacity_after_add`: a second insert on the initialized
index `stateA1` (one stored point, counter reaching 2) resizes to
max(2 · 1, 1000) = 1000. -/
theorem c5_witness :
    (∃ h9, (DbIndex.add stateA1 [⟨"b", [2]⟩] false).2.index = some h9 ∧
      h9.capacity = (if ([(1, ([1] : List ℚ))] : List (Nat × List ℚ)).length <
          elementsOf (DbIndex.add stateA1 [⟨"b", [2]⟩] false).2 then
        resizeTarget (elementsOf (DbIndex.add stateA1 [⟨"b", [2]⟩] false).2)
          stateA1.config.indexResizeFactor
        else 1000)) ∧
    resizeTarget 3000 (1 / 2) = 1500 ∧ 1500 < 3000 :=
  c5_capacity_after_add stateA1
    { dim := 1, capacity := 1000, points := [(1, [1])], deleted := [] }
    [⟨"b", [2]⟩] false (DbIndex.add stateA1 [⟨"b", [2]⟩] false).2
    (by decide) (by decide)

/-! ### C9: updateEmbedding overwrites every relational row -/

end MainProofs
